import Mathlib

/-!
# Campus funding-request tracker: verification of the in-memory engine

Shallow embedding of the `campus_funding` Python sources
(`models.py`, `structures.py`, `storage.py`, `main.py`, `app.py`).

Modelling conventions:
* Python `float` amounts are modelled as `ℚ`: the claims only ever
  compare amounts, and IEEE comparison on the non-NaN floats the
  program produces agrees with the rational order.
* Python dicts are modelled as association lists (`List (String × α)`)
  with Python's semantics: insertion order is preserved, re-assigning an
  existing key updates the value in place.
* Python stores the *same mutable* `FundingRequest` object in
  `requests_map`, the BST, the heap and the approved queue; the only
  mutable field is `status`.  We model this aliasing by indirection:
  the heap holds the immutable key pair `(-urgency, id)` that
  `push_heap` builds, the approved queue holds request ids, and every
  read of a request's current status goes through `requests_map`.
  The BST stores the request record snapshotted at insert time; only
  its immutable fields (`id`, `amount`) are ever consulted by the
  properties below.
* `heapq` (Python's stdlib binary min-heap) is modelled by its
  contract: `heappop` removes and returns the least element of the
  collection under lexicographic tuple order.  The third tuple
  component (the request object) is never compared because ids are
  unique within a heap.
-/

/-- Embeds `models.User`. -/
structure User where
  id : String
  name : String
  role : String
deriving DecidableEq, Repr

/-- Embeds `models.FundingRequest` (default status `"submitted"` is applied at the
construction sites, as in the dataclass). -/
structure FundingRequest where
  id : String
  student_id : String
  amount : ℚ
  urgency : Int
  status : String
deriving DecidableEq, Repr

/-! ## Python dict as an association list -/

/-- Python `d[k]` lookup returning `none` when the key is absent. -/
def dictLookup {α : Type} (d : List (String × α)) (k : String) : Option α :=
  match d with
  | [] => none
  | (k', v) :: rest => if k' = k then some v else dictLookup rest k

/-- Python `d[k] = v`: update in place if the key exists (keeping its position,
as Python dicts do), otherwise append at the end. -/
def dictInsert {α : Type} (d : List (String × α)) (k : String) (v : α) :
    List (String × α) :=
  match d with
  | [] => [(k, v)]
  | (k', v') :: rest =>
      if k' = k then (k, v) :: rest else (k', v') :: dictInsert rest k v

/-- Python `d.values()` in insertion order. -/
def dictValues {α : Type} (d : List (String × α)) : List α := d.map Prod.snd

/-- Python `d.keys()` in insertion order. -/
def dictKeys {α : Type} (d : List (String × α)) : List String := d.map Prod.fst

/-! ## `structures.RequestBST` -/

/-- The BST of `structures.BSTNode`/`RequestBST`, keyed on `amount`. -/
inductive RequestBST : Type where
  | leaf : RequestBST
  | node (left : RequestBST) (req : FundingRequest) (right : RequestBST) :
      RequestBST
deriving DecidableEq, Repr

/-- Embeds `RequestBST.insert`: `if r.amount < node.req.amount: go left else: go
right` — duplicates are kept to the right. -/
def RequestBST.insert : RequestBST → FundingRequest → RequestBST
  | .leaf, r => .node .leaf r .leaf
  | .node l v rt, r =>
      if r.amount < v.amount then .node (l.insert r) v rt
      else .node l v (rt.insert r)

/-- Embeds `RequestBST.inorder`: left, node, right. -/
def RequestBST.inorder : RequestBST → List FundingRequest
  | .leaf => []
  | .node l v rt => l.inorder ++ v :: rt.inorder

/-- Folding `insert` over a submission sequence, starting from the empty
tree (`bst = RequestBST(); for each request: bst.insert(r)`). -/
def buildBST (l : List FundingRequest) : RequestBST :=
  l.foldl RequestBST.insert .leaf

/-! ## Heap (`push_heap` / `pop_heap` over Python `heapq`) -/

/-- A heap entry is the tuple `(-req.urgency, req.id)` (the aliased
request object itself is recovered through `requests_map`). -/
abbrev HeapEntry := Int × String

/-- Python string `<`: lexicographic on code points, a proper prefix is
smaller. -/
def strLtB : List Char → List Char → Bool
  | [], [] => false
  | [], _ :: _ => true
  | _ :: _, [] => false
  | a :: as, b :: bs =>
      if a < b then true
      else if b < a then false
      else strLtB as bs

/-- Python tuple `<` on `(-urgency, id)` pairs. -/
def entryLt (a b : HeapEntry) : Bool :=
  if a.1 < b.1 then true
  else if b.1 < a.1 then false
  else strLtB a.2.data b.2.data

/-- Embeds `structures.push_heap`: `heappush(heap, (-req.urgency, req.id, req))`.
Position in the list is irrelevant: `pop_heap` extracts the minimum. -/
def push_heap (heap : List HeapEntry) (req : FundingRequest) :
    List HeapEntry :=
  (-req.urgency, req.id) :: heap

/-- Least entry of `e :: es` under `entryLt` (first one wins on ties,
which cannot occur for distinct ids). -/
def heapMinEntry (e : HeapEntry) (es : List HeapEntry) : HeapEntry :=
  match es with
  | [] => e
  | x :: xs => heapMinEntry (if entryLt x e then x else e) xs

/-- Embeds `structures.pop_heap`: returns `none` on the empty heap, otherwise
removes and returns the least tuple (`heapq.heappop`). -/
def pop_heap (heap : List HeapEntry) :
    Option (HeapEntry × List HeapEntry) :=
  match heap with
  | [] => none
  | x :: xs =>
      let m := heapMinEntry x xs
      some (m, (x :: xs).erase m)

/-- Heap built by pushing each request of `l` in order onto `h0`. -/
def buildHeap (h0 : List HeapEntry) (l : List FundingRequest) :
    List HeapEntry :=
  l.foldl push_heap h0

/-! ## Approved queue (deque of aliased requests, modelled by ids) -/

/-- Embeds `structures.enqueue`: append at the back. -/
def enqueue (q : List String) (rid : String) : List String := q ++ [rid]

/-! ## Engine state (module-level structures of `main.py` / `app.py`) -/

/-- The mutable module state shared by the CLI and the web handlers:
`users_set`, `users_map`, `requests_map`, `bst`, `heap`, `approved_q`,
`req_counter`. -/
structure EngineState where
  users_set : List String
  users_map : List (String × User)
  requests_map : List (String × FundingRequest)
  bst : RequestBST
  heap : List HeapEntry
  approved_q : List String
  req_counter : Nat
deriving DecidableEq, Repr

/-- The fresh state both entry points start from before loading. -/
def initialState : EngineState :=
  { users_set := [], users_map := [], requests_map := [],
    bst := .leaf, heap := [], approved_q := [], req_counter := 1 }

/-! ## Operations

Each operation returns a result tag plus the successor state.  Input
strings are the already-stripped form values; input numbers that Python
parses with `float(...)` / `int(...)` arrive as `Option` values, `none`
standing for a `ValueError` from the parse. -/

def validRoles : List String := ["student", "admin", "donor"]

inductive RegResult : Type where
  | invalidData   -- web: "Invalid registration data"
  | invalidRole   -- CLI: "Invalid role. Use student/admin/donor."
  | duplicate     -- "User already registered"
  | ok
deriving DecidableEq, Repr

/-- CLI option 1 (`main.py`): the duplicate check on `users_set` happens
first (right after the id prompt), then the role check, then insertion
into `users_set` and `users_map`. -/
def cli_register (s : EngineState) (uid name role : String) :
    RegResult × EngineState :=
  if uid ∈ s.users_set then (.duplicate, s)
  else if role ∉ validRoles then (.invalidRole, s)
  else (.ok, { s with users_set := uid :: s.users_set,
                      users_map := dictInsert s.users_map uid
                        { id := uid, name := name, role := role } })

/-- Web `register` (`app.py`): emptiness/role validation happens *before*
the duplicate check. -/
def web_register (s : EngineState) (uid name role : String) :
    RegResult × EngineState :=
  if uid = "" ∨ name = "" ∨ role ∉ validRoles then (.invalidData, s)
  else if uid ∈ s.users_set then (.duplicate, s)
  else (.ok, { s with users_set := uid :: s.users_set,
                      users_map := dictInsert s.users_map uid
                        { id := uid, name := name, role := role } })

inductive SubmitResult : Type where
  | roleErr               -- "Student not found or not a student role."
  | invalidAmount         -- float(...) raised ValueError
  | invalidUrgency        -- int(...) raised ValueError
  | ok (rid : String)
deriving DecidableEq, Repr

/-- Whether `uid` resolves in `users_map` to a user with role `role`
(the `uid in users_map and users_map[uid].role == role` pattern). -/
def hasRole (s : EngineState) (uid role : String) : Bool :=
  match dictLookup s.users_map uid with
  | none => false
  | some u => u.role = role

/-- CLI option 2 / web `submit`: role gate, parse `amount` and `urgency`
(no sign check on either), allocate `R<counter>`, create the record with
status `"submitted"`, insert into `requests_map`, the BST and the heap. -/
def submit (s : EngineState) (sid : String) (amount' : Option ℚ)
    (urgency' : Option Int) : SubmitResult × EngineState :=
  if ¬ hasRole s sid "student" then (.roleErr, s)
  else
    match amount' with
    | none => (.invalidAmount, s)
    | some amount =>
      match urgency' with
      | none => (.invalidUrgency, s)
      | some urgency =>
        let rid := "R" ++ toString s.req_counter
        let fr : FundingRequest :=
          { id := rid, student_id := sid, amount := amount,
            urgency := urgency, status := "submitted" }
        (.ok rid,
         { s with requests_map := dictInsert s.requests_map rid fr,
                  bst := s.bst.insert fr,
                  heap := push_heap s.heap fr,
                  req_counter := s.req_counter + 1 })

inductive CliReviewResult : Type where
  | roleErr               -- "Admin not found or not an admin."
  | empty                 -- "No pending requests to review."
  | alreadyHandled        -- "Request already handled, pulling next if available."
  | approved (rid : String)
  | rejected (rid : String)
deriving DecidableEq, Repr

/-- CLI option 3 (`main.py` lines 116-140): pop the heap; if the popped
request is gone or its current status is no longer `"submitted"`, report
"already handled" without re-inserting; otherwise apply the admin's
decision to the aliased record and, on approval, enqueue it. -/
def cli_review (s : EngineState) (aid : String) (approve : Bool) :
    CliReviewResult × EngineState :=
  if ¬ hasRole s aid "admin" then (.roleErr, s)
  else
    match pop_heap s.heap with
    | none => (.empty, s)
    | some (e, rest) =>
      let rid := e.2
      match dictLookup s.requests_map rid with
      | none => (.alreadyHandled, { s with heap := rest })
      | some r =>
        if r.status ≠ "submitted" then
          (.alreadyHandled, { s with heap := rest })
        else if approve then
          (.approved rid,
           { s with heap := rest,
                    requests_map := dictInsert s.requests_map rid
                      { r with status := "approved" },
                    approved_q := enqueue s.approved_q rid })
        else
          (.rejected rid,
           { s with heap := rest,
                    requests_map := dictInsert s.requests_map rid
                      { r with status := "rejected" } })

inductive WebReviewResult : Type where
  | roleErr
  | empty
  | review (rid : String)  -- review.html is rendered for this request
deriving DecidableEq, Repr

/-- Web `admin_review` (`app.py` lines 131-142): pops the heap and hands
the popped request straight to the decision form — no status check. -/
def admin_review (s : EngineState) (aid : String) :
    WebReviewResult × EngineState :=
  if ¬ hasRole s aid "admin" then (.roleErr, s)
  else
    match pop_heap s.heap with
    | none => (.empty, s)
    | some (e, rest) => (.review e.2, { s with heap := rest })

inductive DecideResult : Type where
  | notFound              -- "Request not found"
  | approvedOk
  | rejectedOk
deriving DecidableEq, Repr

/-- Web `admin_decide` (`app.py` lines 145-162): looks the id up; on
`approve` sets status to `"approved"` and enqueues — with **no check**
of the current status; otherwise sets status to `"rejected"` (again with
no check, and without touching the approved queue). -/
def admin_decide (s : EngineState) (rid : String) (approve : Bool) :
    DecideResult × EngineState :=
  match dictLookup s.requests_map rid with
  | none => (.notFound, s)
  | some r =>
    if approve then
      (.approvedOk,
       { s with requests_map := dictInsert s.requests_map rid
                  { r with status := "approved" },
                approved_q := enqueue s.approved_q rid })
    else
      (.rejectedOk,
       { s with requests_map := dictInsert s.requests_map rid
                  { r with status := "rejected" } })

inductive DonateResult : Type where
  | invalidAmount         -- float(...) raised ValueError
  | roleErr               -- "Donor not found or invalid role"
  | notApproved           -- "Request not found or not approved"
  | funded
  | insufficient          -- "Donation insufficient to fully fund the request"
deriving DecidableEq, Repr

/-- Web `donate` (`app.py` lines 165-195): parse the donation, gate on
the donor role, require an existing request with status `"approved"`;
if `amt >= req.amount` mark it funded and rebuild the approved queue
without that id, else report insufficiency and change nothing.  The CLI
option 4 applies the same checks and transitions on these inputs. -/
def donate (s : EngineState) (donor rid : String) (amt' : Option ℚ) :
    DonateResult × EngineState :=
  match amt' with
  | none => (.invalidAmount, s)
  | some amt =>
    if ¬ hasRole s donor "donor" then (.roleErr, s)
    else
      match dictLookup s.requests_map rid with
      | none => (.notApproved, s)
      | some r =>
        if r.status ≠ "approved" then (.notApproved, s)
        else if amt ≥ r.amount then
          (.funded,
           { s with requests_map := dictInsert s.requests_map rid
                      { r with status := "funded" },
                    approved_q := s.approved_q.filter (· ≠ rid) })
        else (.insufficient, s)

/-! ## Persistence (`storage.py`) and state reconstruction

`save_state` serializes `users_map.values()` and `requests_map.values()`
to JSON.  `load_state` parses the file back.  A parsed JSON record may
lack fields, and its numeric fields may fail `float(...)` / `int(...)`;
we model a parsed numeric field with three cases. -/

/-- A JSON numeric-ish field: absent, present but failing the numeric
conversion, or converting to `a`. -/
inductive JField (α : Type) : Type where
  | missing : JField α
  | malformed : JField α
  | val (a : α) : JField α
deriving DecidableEq, Repr

/-- A record in the `"users"` array of the JSON payload. -/
structure JUser where
  jid : Option String
  jname : Option String
  jrole : Option String
deriving DecidableEq, Repr

/-- A record in the `"requests"` array of the JSON payload. -/
structure JRequest where
  jid : Option String
  jstudent_id : Option String
  jamount : JField ℚ
  jurgency : JField Int
  jstatus : Option String
deriving DecidableEq, Repr

/-- The JSON payload `{"users": [...], "requests": [...]}`. -/
structure Payload where
  users : List JUser
  requests : List JRequest
deriving DecidableEq, Repr

/-- What `load_state` finds on disk: no file, a file `json.load` cannot
parse, or a parsed payload. -/
inductive LoadInput : Type where
  | fileMissing
  | unparseable
  | parsed (p : Payload)
deriving DecidableEq, Repr

/-- Embeds `storage.save_state`: every field of every record is written out. -/
def save_state (users_map : List (String × User))
    (requests_map : List (String × FundingRequest)) : Payload :=
  { users := (dictValues users_map).map fun u =>
      { jid := some u.id, jname := some u.name, jrole := some u.role },
    requests := (dictValues requests_map).map fun r =>
      { jid := some r.id, jstudent_id := some r.student_id,
        jamount := .val r.amount, jurgency := .val r.urgency,
        jstatus := some r.status } }

/-- Embeds `float(r.get("amount", 0))` with the surrounding `try/except`:
missing defaults to `float(0) = 0.0`, a malformed value falls back to
`0.0`. -/
def parseAmount : JField ℚ → ℚ
  | .missing => 0
  | .malformed => 0
  | .val a => a

/-- Embeds `int(r.get("urgency", 1))` with the surrounding `try/except`. -/
def parseUrgency : JField Int → Int
  | .missing => 1
  | .malformed => 1
  | .val a => a

/-- The uncaught exception of `u["id"]` / `r["id"]` on a record without
an `"id"` key (a Python `KeyError`; it is *outside* the `try` that
guards the file read). -/
inductive KeyError : Type where
  | idMissing
deriving DecidableEq, Repr

/-- The `for u in payload.get("users", [])` loop: builds `users_map`
keyed by `u["id"]`, defaulting `name` to `""` and `role` to
`"student"`; raises on a record without `"id"`. -/
def loadUsers (acc : List (String × User)) :
    List JUser → Except KeyError (List (String × User))
  | [] => .ok acc
  | u :: us =>
    match u.jid with
    | none => .error .idMissing
    | some i =>
        loadUsers (dictInsert acc i
          { id := i, name := u.jname.getD "", role := u.jrole.getD "student" }) us

/-- The `for r in payload.get("requests", [])` loop, with the numeric
defaulting of `storage.load_state`. -/
def loadRequests (acc : List (String × FundingRequest)) :
    List JRequest → Except KeyError (List (String × FundingRequest))
  | [] => .ok acc
  | r :: rs =>
    match r.jid with
    | none => .error .idMissing
    | some i =>
        loadRequests (dictInsert acc i
          { id := i, student_id := r.jstudent_id.getD "",
            amount := parseAmount r.jamount,
            urgency := parseUrgency r.jurgency,
            status := r.jstatus.getD "submitted" }) rs

/-- Embeds `storage.load_state`: empty maps when the file is missing or does
not parse; otherwise rebuild both maps, propagating the `KeyError` of a
record without `"id"`. -/
def load_state (input : LoadInput) :
    Except KeyError (List (String × User) × List (String × FundingRequest)) :=
  match input with
  | .fileMissing => .ok ([], [])
  | .unparseable => .ok ([], [])
  | .parsed p =>
      match loadUsers [] p.users with
      | .error e => .error e
      | .ok users =>
          match loadRequests [] p.requests with
          | .error e => .error e
          | .ok requests => .ok (users, requests)

/-- The reconstruction loop of `main.py` (lines 50-57) / `app.py`
(lines 31-39): for every loaded request insert into the BST, push onto
the heap when status is `"submitted"`, enqueue when `"approved"`. -/
def rebuildStructures (requests : List FundingRequest) :
    RequestBST × List HeapEntry × List String :=
  requests.foldl
    (fun acc r =>
      (acc.1.insert r,
       if r.status = "submitted" then push_heap acc.2.1 r else acc.2.1,
       if r.status = "approved" then enqueue acc.2.2 r.id else acc.2.2))
    (.leaf, [], [])

/-- The counter recomputation of `main.py` (lines 58-67): one more than
the largest `n` over ids of the form `R<digits>`, defaulting to 1. -/
def recomputeCounter (rids : List String) : Nat :=
  (rids.foldl
    (fun maxn rid =>
      if rid.startsWith "R" ∧ (rid.drop 1).toList.all Char.isDigit ∧
          (rid.drop 1) ≠ "" then
        max maxn (rid.drop 1).toNat!
      else maxn)
    0) + 1

/-- Full startup-from-disk state (`main.py` lines 37-67): empty state,
then merge the loaded maps and rebuild the three derived structures. -/
def engineLoad (input : LoadInput) : Except KeyError EngineState :=
  match load_state input with
  | .error e => .error e
  | .ok (users, requests) =>
      let built := rebuildStructures (dictValues requests)
      .ok { users_set := dictKeys users,
            users_map := users,
            requests_map := requests,
            bst := built.1,
            heap := built.2.1,
            approved_q := built.2.2,
            req_counter :=
              if requests = [] then 1
              else recomputeCounter (dictKeys requests) }

/-! ## Invariant and specification-side definitions -/

/-- The C3 invariant on a request map and an approved queue, executable:
every queued id resolves to a request whose current status is
`"approved"`, and every stored request has status `"approved"` exactly
when its id is in the approved queue. -/
def invPair (m : List (String × FundingRequest)) (q : List String) : Bool :=
  (q.all fun rid =>
    match dictLookup m rid with
    | some r => r.status == "approved"
    | none => false)
  && ((dictKeys m).all fun k =>
    match dictLookup m k with
    | some r => (r.status == "approved") == q.contains k
    | none => true)

/-- The C3 invariant of an engine state. -/
def approvedInvB (s : EngineState) : Bool :=
  invPair s.requests_map s.approved_q

/-- Specification-side stable insertion by amount (equal keys keep
arrival order: the new element goes *after* existing equals).  This is
the spec's description of `orderedView()`; C6 compares the source's BST
traversal against it. -/
def sortedInsert (r : FundingRequest) :
    List FundingRequest → List FundingRequest
  | [] => [r]
  | x :: xs =>
      if x.amount ≤ r.amount then x :: sortedInsert r xs else r :: x :: xs

/-- Specification-side stable sort by amount (insertion order preserved
among equal amounts). -/
def stableSortAmt (l : List FundingRequest) : List FundingRequest :=
  l.foldl (fun acc r => sortedInsert r acc) []

/-- All requests in a tree satisfy `p`. -/
def treeAll (p : FundingRequest → Prop) : RequestBST → Prop
  | .leaf => True
  | .node l v rt => treeAll p l ∧ p v ∧ treeAll p rt

/-- The search invariant `RequestBST.insert` maintains: strictly
smaller amounts on the left, greater-or-equal amounts on the right. -/
def bstInv : RequestBST → Prop
  | .leaf => True
  | .node l v rt =>
      treeAll (fun x => x.amount < v.amount) l ∧
      treeAll (fun x => v.amount ≤ x.amount) rt ∧
      bstInv l ∧ bstInv rt

/-- Numeric suffix of an id of the form `R<n>` (digits read base 10). -/
def ridNum (rid : String) : Nat :=
  (rid.data.drop 1).foldl (fun n c => n * 10 + (c.toNat - 48)) 0

/-! ## Concrete fixture states used by witnesses and counterexamples -/

def exStudent : User := { id := "s1", name := "Ana", role := "student" }

def exAdmin : User := { id := "a1", name := "Bo", role := "admin" }

def exDonor : User := { id := "d1", name := "Cy", role := "donor" }

/-- A state holding one approved request `R1` (in the approved queue)
and the three example users. -/
def approvedState : EngineState :=
  { users_set := ["d1", "a1", "s1"],
    users_map := [("s1", exStudent), ("a1", exAdmin), ("d1", exDonor)],
    requests_map :=
      [("R1", { id := "R1", student_id := "s1", amount := 100,
                urgency := 5, status := "approved" })],
    bst := .node .leaf
      { id := "R1", student_id := "s1", amount := 100,
        urgency := 5, status := "approved" } .leaf,
    heap := [],
    approved_q := ["R1"],
    req_counter := 2 }

/-- A state whose heap still holds the entry for `R1` although `R1` has
already been decided (status `"approved"`): the stale-pop situation. -/
def staleHeapState : EngineState :=
  { approvedState with heap := [(-5, "R1")] }

/-- A state with one registered student and no requests. -/
def studentOnlyState : EngineState :=
  { users_set := ["s1"],
    users_map := [("s1", exStudent)],
    requests_map := [], bst := .leaf, heap := [],
    approved_q := [], req_counter := 1 }

/-- A state holding one still-submitted request `R1`. -/
def submittedState : EngineState :=
  { users_set := ["d1", "a1", "s1"],
    users_map := [("s1", exStudent), ("a1", exAdmin), ("d1", exDonor)],
    requests_map :=
      [("R1", { id := "R1", student_id := "s1", amount := 100,
                urgency := 5, status := "submitted" })],
    bst := .node .leaf
      { id := "R1", student_id := "s1", amount := 100,
        urgency := 5, status := "submitted" } .leaf,
    heap := [(-5, "R1")],
    approved_q := [],
    req_counter := 2 }

/-! ## Association-list lemmas -/

theorem dictLookup_insert_self {α : Type} (d : List (String × α)) (k : String)
    (v : α) : dictLookup (dictInsert d k v) k = some v := by
  induction d with
  | nil => simp [dictInsert, dictLookup]
  | cons kv rest ih =>
      obtain ⟨k', v'⟩ := kv
      by_cases h : k' = k
      · simp [dictInsert, dictLookup, h]
      · simp [dictInsert, dictLookup, h, ih]

theorem dictLookup_insert_ne {α : Type} (d : List (String × α)) (k k' : String)
    (v : α) (h : k' ≠ k) :
    dictLookup (dictInsert d k v) k' = dictLookup d k' := by
  induction d with
  | nil => simp [dictInsert, dictLookup, Ne.symm h]
  | cons kv rest ih =>
      obtain ⟨k'', v'⟩ := kv
      by_cases h1 : k'' = k
      · subst h1
        simp [dictInsert, dictLookup, Ne.symm h]
      · simp [dictInsert, dictLookup, h1, ih]

theorem mem_dictKeys_insert {α : Type} (d : List (String × α)) (k k' : String)
    (v : α) : k' ∈ dictKeys (dictInsert d k v) ↔ k' ∈ dictKeys d ∨ k' = k := by
  induction d with
  | nil => simp [dictInsert, dictKeys]
  | cons kv rest ih =>
      obtain ⟨k'', v'⟩ := kv
      by_cases h : k'' = k
      · subst h
        simp [dictInsert, dictKeys]
        tauto
      · simp [dictInsert, dictKeys, h] at ih ⊢
        tauto

theorem dictLookup_eq_none_iff {α : Type} (d : List (String × α)) (k : String) :
    dictLookup d k = none ↔ k ∉ dictKeys d := by
  induction d with
  | nil => simp [dictLookup, dictKeys]
  | cons kv rest ih =>
      obtain ⟨k', v⟩ := kv
      by_cases h : k' = k
      · simp [dictLookup, dictKeys, h]
      · simp [dictLookup, dictKeys, h, ih]
        tauto

theorem dictLookup_mem_keys {α : Type} {d : List (String × α)} {k : String}
    {v : α} (h : dictLookup d k = some v) : k ∈ dictKeys d := by
  by_contra hk
  rw [← dictLookup_eq_none_iff] at hk
  rw [h] at hk
  exact Option.noConfusion hk

theorem dictLookup_some_of_mem_keys {α : Type} {d : List (String × α)}
    {k : String} (h : k ∈ dictKeys d) : ∃ v, dictLookup d k = some v := by
  cases hl : dictLookup d k with
  | none => exact absurd ((dictLookup_eq_none_iff d k).mp hl) (fun h' => h' h)
  | some v => exact ⟨v, rfl⟩

theorem dictInsert_fresh {α : Type} {d : List (String × α)} {k : String}
    (v : α) (h : k ∉ dictKeys d) : dictInsert d k v = d ++ [(k, v)] := by
  induction d with
  | nil => simp [dictInsert]
  | cons kv rest ih =>
      obtain ⟨k', v'⟩ := kv
      simp [dictKeys] at h
      simp [dictInsert, h.1, ih (by simp [dictKeys, h.2])]
      exact fun h' => absurd h'.symm h.1

/-! ## C9 — duplicate registration -/

/-- C9 (amended): re-registering an already-present user id never
succeeds and leaves the state — hence the original user record —
unchanged.  The CLI path always reports DuplicateUser; the web path
reports DuplicateUser when the resubmitted name is nonempty, the id is
nonempty and the role is valid, but reports invalid-data (not
DuplicateUser) when the rest of the form is malformed. -/
theorem C9_duplicate_register (s : EngineState) (uid name role : String)
    (h : uid ∈ s.users_set) :
    cli_register s uid name role = (.duplicate, s) ∧
    (web_register s uid name role).2 = s ∧
    (uid ≠ "" → name ≠ "" → role ∈ validRoles →
      web_register s uid name role = (.duplicate, s)) := by
  refine ⟨by simp [cli_register, h], ?_, ?_⟩
  · by_cases h1 : uid = "" ∨ name = "" ∨ role ∉ validRoles
    · simp [web_register, h1]
    · simp [web_register, h1, h]
  · intro h1 h2 h3
    simp [web_register, h1, h2, h3, h]

/-- C9 witness at a concrete state: `"s1"` is registered, and both
paths refuse the duplicate with state unchanged. -/
theorem C9_duplicate_register_witness :
    "s1" ∈ studentOnlyState.users_set ∧
    cli_register studentOnlyState "s1" "Eve" "admin" =
      (.duplicate, studentOnlyState) ∧
    web_register studentOnlyState "s1" "Eve" "admin" =
      (.duplicate, studentOnlyState) :=
  ⟨by decide,
   (C9_duplicate_register studentOnlyState "s1" "Eve" "admin" (by decide)).1,
   (C9_duplicate_register studentOnlyState "s1" "Eve" "admin" (by decide)).2.2
     (by decide) (by decide) (by decide)⟩

/-- C9 counterexample to the claim as stated: `"s1"` is already present
in the registry, yet a second register call with that id (with an empty
name) fails with the invalid-data error, not DuplicateUser — the web
handler validates the form before checking for duplicates.  The record
is still left unchanged. -/
theorem C9_counterexample :
    "s1" ∈ studentOnlyState.users_set ∧
    (web_register studentOnlyState "s1" "" "student").1 = RegResult.invalidData ∧
    RegResult.invalidData ≠ RegResult.duplicate ∧
    (web_register studentOnlyState "s1" "" "student").2 = studentOnlyState := by
  refine ⟨by decide, by decide, by decide, by decide⟩

/-! ## C4 — SubmitRequest -/

/-- C4 (amended): SubmitRequest fails with RoleError unless the id
resolves to a registered student, and fails with ValidationError
exactly when `float(amount)` or `int(urgency)` raises — the sign of a
successfully parsed amount is *not* checked.  On success it allocates
the next sequential id `R<counter>`, creates the record with status
`"submitted"`, and inserts it into RequestStore, AmountIndex and
UrgencyQueue. -/
theorem C4_submit (s : EngineState) (sid : String) (amount' : Option ℚ)
    (urgency' : Option Int) :
    (¬ hasRole s sid "student" →
      submit s sid amount' urgency' = (.roleErr, s)) ∧
    (hasRole s sid "student" → amount' = none →
      submit s sid amount' urgency' = (.invalidAmount, s)) ∧
    (∀ a, hasRole s sid "student" → amount' = some a → urgency' = none →
      submit s sid amount' urgency' = (.invalidUrgency, s)) ∧
    (∀ a u, hasRole s sid "student" → amount' = some a → urgency' = some u →
      (submit s sid amount' urgency').1 = .ok ("R" ++ toString s.req_counter) ∧
      (submit s sid amount' urgency').2 =
        { s with
          requests_map := dictInsert s.requests_map
            ("R" ++ toString s.req_counter)
            { id := "R" ++ toString s.req_counter, student_id := sid,
              amount := a, urgency := u, status := "submitted" },
          bst := s.bst.insert
            { id := "R" ++ toString s.req_counter, student_id := sid,
              amount := a, urgency := u, status := "submitted" },
          heap := push_heap s.heap
            { id := "R" ++ toString s.req_counter, student_id := sid,
              amount := a, urgency := u, status := "submitted" },
          req_counter := s.req_counter + 1 }) := by
  refine ⟨?_, ?_, ?_, ?_⟩
  · intro h; simp [submit, h]
  · intro h ha; simp [submit, h, ha]
  · intro a h ha hu; simp [submit, h, ha, hu]
  · intro a u h ha hu
    simp [submit, h, ha, hu]

/-- C4 witness at concrete inputs: the role error on an unknown
student, the validation error on an unparseable amount, and a
successful submission. -/
theorem C4_submit_witness :
    submit studentOnlyState "nobody" (some 100) (some 5) =
      (.roleErr, studentOnlyState) ∧
    submit studentOnlyState "s1" none (some 5) =
      (.invalidAmount, studentOnlyState) ∧
    (submit studentOnlyState "s1" (some 100) (some 5)).1 =
      SubmitResult.ok "R1" :=
  ⟨(C4_submit studentOnlyState "nobody" (some 100) (some 5)).1 (by decide),
   (C4_submit studentOnlyState "s1" none (some 5)).2.1 (by decide) rfl,
   ((C4_submit studentOnlyState "s1" (some 100) (some 5)).2.2.2 100 5
     (by decide) rfl rfl).1⟩

/-- C4 counterexample to the claim as stated: `-5` parses as a number
but is not a non-negative number, yet the submission succeeds — the
code never checks the sign of the parsed amount. -/
theorem C4_counterexample :
    ((-5 : ℚ) < 0) ∧
    (submit studentOnlyState "s1" (some (-5)) (some 1)).1 =
      SubmitResult.ok "R1" ∧
    (dictLookup (submit studentOnlyState "s1" (some (-5)) (some 1)).2.requests_map
        "R1").map FundingRequest.amount = some (-5) := by
  refine ⟨by norm_num, by decide, by decide⟩

/-! ## The approved-queue invariant, in propositional form -/

theorem bool_eq_iff {a b : Bool} : a = b ↔ ((a = true) ↔ (b = true)) := by
  constructor
  · intro h; rw [h]
  · intro h; cases a <;> cases b <;> simp_all

theorem invPair_iff (m : List (String × FundingRequest)) (q : List String) :
    invPair m q = true ↔
      ((∀ rid ∈ q, ∃ r, dictLookup m rid = some r ∧ r.status = "approved") ∧
       (∀ k r, dictLookup m k = some r → (r.status = "approved" ↔ k ∈ q))) := by
  unfold invPair
  rw [Bool.and_eq_true, List.all_eq_true, List.all_eq_true]
  constructor
  · rintro ⟨h1, h2⟩
    constructor
    · intro rid hrid
      have := h1 rid hrid
      cases hl : dictLookup m rid with
      | none => rw [hl] at this; exact absurd this (by simp)
      | some r =>
          rw [hl] at this
          exact ⟨r, rfl, beq_iff_eq.mp this⟩
    · intro k r hl
      have hk : k ∈ dictKeys m := dictLookup_mem_keys hl
      have := h2 k hk
      rw [hl] at this
      have h3 : (r.status == "approved") = q.contains k := beq_iff_eq.mp this
      rw [bool_eq_iff] at h3
      rw [beq_iff_eq, List.elem_iff] at h3
      exact h3
  · rintro ⟨h1, h2⟩
    constructor
    · intro rid hrid
      obtain ⟨r, hl, hst⟩ := h1 rid hrid
      rw [hl]
      simp [hst]
    · intro k hk
      obtain ⟨r, hl⟩ := dictLookup_some_of_mem_keys hk
      rw [hl]
      have h3 := h2 k r hl
      rw [beq_iff_eq, bool_eq_iff, beq_iff_eq, List.elem_iff]
      exact h3

theorem invPair_not_mem_queue {m : List (String × FundingRequest)}
    {q : List String} {rid : String} {r : FundingRequest}
    (hInv : invPair m q = true) (hr : dictLookup m rid = some r)
    (hst : r.status ≠ "approved") : rid ∉ q := by
  intro hq
  exact hst ((((invPair_iff m q).mp hInv).2 rid r hr).mpr hq)

theorem invPair_approve {m : List (String × FundingRequest)} {q : List String}
    {rid : String} {r : FundingRequest}
    (hInv : invPair m q = true) (hr : dictLookup m rid = some r)
    (hst : r.status = "submitted") :
    invPair (dictInsert m rid { r with status := "approved" }) (q ++ [rid]) =
      true := by
  have h := (invPair_iff m q).mp hInv
  have hnq : rid ∉ q := invPair_not_mem_queue hInv hr (by rw [hst]; decide)
  rw [invPair_iff]
  constructor
  · intro x hx
    rcases List.mem_append.mp hx with hx | hx
    · have hne : x ≠ rid := fun he => hnq (he ▸ hx)
      obtain ⟨r', hl', hst'⟩ := h.1 x hx
      exact ⟨r', by rw [dictLookup_insert_ne _ _ _ _ hne]; exact hl', hst'⟩
    · have hx : x = rid := by simpa using hx
      subst hx
      exact ⟨_, dictLookup_insert_self _ _ _, rfl⟩
  · intro k r' hl'
    by_cases hk : k = rid
    · subst hk
      rw [dictLookup_insert_self] at hl'
      obtain rfl := Option.some.inj hl'
      simp
    · rw [dictLookup_insert_ne _ _ _ _ hk] at hl'
      have := h.2 k r' hl'
      simpa [hk] using this

theorem invPair_reject {m : List (String × FundingRequest)} {q : List String}
    {rid : String} {r : FundingRequest}
    (hInv : invPair m q = true) (hr : dictLookup m rid = some r)
    (hst : r.status = "submitted") :
    invPair (dictInsert m rid { r with status := "rejected" }) q = true := by
  have h := (invPair_iff m q).mp hInv
  have hnq : rid ∉ q := invPair_not_mem_queue hInv hr (by rw [hst]; decide)
  rw [invPair_iff]
  constructor
  · intro x hx
    have hne : x ≠ rid := fun he => hnq (he ▸ hx)
    obtain ⟨r', hl', hst'⟩ := h.1 x hx
    exact ⟨r', by rw [dictLookup_insert_ne _ _ _ _ hne]; exact hl', hst'⟩
  · intro k r' hl'
    by_cases hk : k = rid
    · subst hk
      rw [dictLookup_insert_self] at hl'
      obtain rfl := Option.some.inj hl'
      simp [hnq]
    · rw [dictLookup_insert_ne _ _ _ _ hk] at hl'
      exact h.2 k r' hl'

theorem invPair_fund {m : List (String × FundingRequest)} {q : List String}
    {rid : String} {r : FundingRequest}
    (hInv : invPair m q = true) (hr : dictLookup m rid = some r) :
    invPair (dictInsert m rid { r with status := "funded" })
      (q.filter (· ≠ rid)) = true := by
  have h := (invPair_iff m q).mp hInv
  rw [invPair_iff]
  constructor
  · intro x hx
    have hx' := List.mem_filter.mp hx
    have hne : x ≠ rid := by simpa using hx'.2
    obtain ⟨r', hl', hst'⟩ := h.1 x hx'.1
    exact ⟨r', by rw [dictLookup_insert_ne _ _ _ _ hne]; exact hl', hst'⟩
  · intro k r' hl'
    by_cases hk : k = rid
    · subst hk
      rw [dictLookup_insert_self] at hl'
      obtain rfl := Option.some.inj hl'
      simp [List.mem_filter]
    · rw [dictLookup_insert_ne _ _ _ _ hk] at hl'
      have := h.2 k r' hl'
      rw [this]
      simp [List.mem_filter, hk]

theorem invPair_fresh {m : List (String × FundingRequest)} {q : List String}
    {rid : String} {fr : FundingRequest}
    (hInv : invPair m q = true) (hnone : dictLookup m rid = none)
    (hst : fr.status = "submitted") :
    invPair (dictInsert m rid fr) q = true := by
  have h := (invPair_iff m q).mp hInv
  have hnq : rid ∉ q := by
    intro hq
    obtain ⟨r', hl', _⟩ := h.1 rid hq
    rw [hnone] at hl'
    exact Option.noConfusion hl'
  rw [invPair_iff]
  constructor
  · intro x hx
    have hne : x ≠ rid := fun he => hnq (he ▸ hx)
    obtain ⟨r', hl', hst'⟩ := h.1 x hx
    exact ⟨r', by rw [dictLookup_insert_ne _ _ _ _ hne]; exact hl', hst'⟩
  · intro k r' hl'
    by_cases hk : k = rid
    · subst hk
      rw [dictLookup_insert_self] at hl'
      obtain rfl := Option.some.inj hl'
      rw [hst]
      simp [hnq]
    · rw [dictLookup_insert_ne _ _ _ _ hk] at hl'
      exact h.2 k r' hl'

/-! ## C2 — Decide(approve) -/

/-- C2 (amended): Decide(rid, approve=true) fails with NotFound only
when the id is unknown (state unchanged); whenever the id is known it
*succeeds regardless of the current status* — there is no defensive
`status == submitted` check — setting the status to `"approved"` and
appending the id to ApprovedQueue.  The request therefore appears in
ApprovedQueue exactly once afterwards provided it was not already
queued, which is the case for a request whose current status is
`"submitted"` when the queue invariant holds. -/
theorem C2_admin_decide (s : EngineState) (rid : String) :
    (dictLookup s.requests_map rid = none →
      admin_decide s rid true = (.notFound, s)) ∧
    (∀ r, dictLookup s.requests_map rid = some r →
      (admin_decide s rid true).1 = .approvedOk ∧
      dictLookup (admin_decide s rid true).2.requests_map rid =
        some { r with status := "approved" } ∧
      (admin_decide s rid true).2.approved_q = s.approved_q ++ [rid] ∧
      (rid ∉ s.approved_q →
        List.count rid (admin_decide s rid true).2.approved_q = 1) ∧
      (approvedInvB s = true → r.status = "submitted" →
        List.count rid (admin_decide s rid true).2.approved_q = 1)) := by
  constructor
  · intro h
    simp [admin_decide, h]
  · intro r hr
    have hq : (admin_decide s rid true).2.approved_q = s.approved_q ++ [rid] := by
      simp [admin_decide, hr, enqueue]
    have hcount : rid ∉ s.approved_q →
        List.count rid (admin_decide s rid true).2.approved_q = 1 := by
      intro hn
      rw [hq, List.count_append]
      rw [List.count_eq_zero.mpr hn]
      simp
    refine ⟨by simp [admin_decide, hr], ?_, hq, hcount, ?_⟩
    · simp [admin_decide, hr, dictLookup_insert_self]
    · intro hInv hst
      exact hcount (invPair_not_mem_queue hInv hr (by rw [hst]; decide))

/-- C2 witness at a concrete state: deciding the still-submitted `R1`
succeeds and it then sits in the approved queue exactly once. -/
theorem C2_admin_decide_witness :
    dictLookup submittedState.requests_map "R1" =
      some { id := "R1", student_id := "s1", amount := 100,
             urgency := 5, status := "submitted" } ∧
    (admin_decide submittedState "R1" true).1 = DecideResult.approvedOk ∧
    List.count "R1" (admin_decide submittedState "R1" true).2.approved_q = 1 :=
  ⟨by decide,
   ((C2_admin_decide submittedState "R1").2
     { id := "R1", student_id := "s1", amount := 100,
       urgency := 5, status := "submitted" } (by decide)).1,
   ((C2_admin_decide submittedState "R1").2
     { id := "R1", student_id := "s1", amount := 100,
       urgency := 5, status := "submitted" } (by decide)).2.2.2.1 (by decide)⟩

/-- C2 counterexample to the claim as stated: `R1` already has status
`"approved"` (not `"submitted"`), yet Decide(R1, approve) succeeds
instead of failing, and afterwards `R1` appears in ApprovedQueue twice,
not exactly once. -/
theorem C2_counterexample :
    (dictLookup approvedState.requests_map "R1").map FundingRequest.status =
      some "approved" ∧
    (admin_decide approvedState "R1" true).1 = DecideResult.approvedOk ∧
    List.count "R1" (admin_decide approvedState "R1" true).2.approved_q = 2 := by
  refine ⟨by decide, by decide, by decide⟩

/-! ## C5 — Donate -/

/-- C5 (confirmed): for an approved request and a valid donor, a
donation at least the request's amount marks it `"funded"` and removes
its id from ApprovedQueue (all occurrences); a donation strictly below
the amount reports insufficiency and leaves the whole state unchanged —
status stays `"approved"`, queue membership is untouched, and nothing
records partial credit. -/
theorem C5_donate (s : EngineState) (donor rid : String)
    (r : FundingRequest) (a : ℚ)
    (hr : dictLookup s.requests_map rid = some r)
    (hst : r.status = "approved")
    (hd : hasRole s donor "donor" = true) :
    (a ≥ r.amount →
      (donate s donor rid (some a)).1 = .funded ∧
      dictLookup (donate s donor rid (some a)).2.requests_map rid =
        some { r with status := "funded" } ∧
      (donate s donor rid (some a)).2.approved_q =
        s.approved_q.filter (· ≠ rid) ∧
      rid ∉ (donate s donor rid (some a)).2.approved_q) ∧
    (a < r.amount →
      donate s donor rid (some a) = (.insufficient, s)) := by
  constructor
  · intro hge
    have hstep : donate s donor rid (some a) =
        (.funded,
         { s with
           requests_map :=
             dictInsert s.requests_map rid { r with status := "funded" },
           approved_q := s.approved_q.filter (· ≠ rid) }) := by
      simp [donate, hd, hr, hst, hge]
    refine ⟨by rw [hstep], ?_, by rw [hstep], ?_⟩
    · rw [hstep]
      exact dictLookup_insert_self _ _ _
    · rw [hstep]
      intro hmem
      have := (List.mem_filter.mp hmem).2
      simp at this
  · intro hlt
    have hnge : ¬ a ≥ r.amount := not_le.mpr hlt
    simp [donate, hd, hr, hst, hnge]

/-- C5 witness at a concrete state: a full donation funds `R1` and
empties the queue; a short donation changes nothing. -/
theorem C5_donate_witness :
    ((donate approvedState "d1" "R1" (some 100)).1 = DonateResult.funded ∧
     "R1" ∉ (donate approvedState "d1" "R1" (some 100)).2.approved_q) ∧
    donate approvedState "d1" "R1" (some 99) =
      (DonateResult.insufficient, approvedState) :=
  ⟨⟨((C5_donate approvedState "d1" "R1"
      { id := "R1", student_id := "s1", amount := 100,
        urgency := 5, status := "approved" } 100
      (by decide) rfl (by decide)).1 (by norm_num)).1,
    ((C5_donate approvedState "d1" "R1"
      { id := "R1", student_id := "s1", amount := 100,
        urgency := 5, status := "approved" } 100
      (by decide) rfl (by decide)).1 (by norm_num)).2.2.2⟩,
   (C5_donate approvedState "d1" "R1"
      { id := "R1", student_id := "s1", amount := 100,
        urgency := 5, status := "approved" } 99
      (by decide) rfl (by decide)).2 (by norm_num)⟩

/-! ## C7 — stale pops at review time -/

/-- C7 (amended): when the popped request's current status is no longer
`"submitted"`, the CLI engine reports "already handled", does not
re-insert the popped entry (the new heap is exactly the old heap with
that entry removed), and leaves everything else unchanged so the caller
can retry; the web `admin_review` path, by contrast, performs no status
check and hands the popped stale request back for decision (it does not
re-insert it either). -/
theorem C7_stale_review (s : EngineState) (aid : String) (approve : Bool)
    (e : HeapEntry) (rest : List HeapEntry) (r : FundingRequest)
    (ha : hasRole s aid "admin" = true)
    (hp : pop_heap s.heap = some (e, rest))
    (hr : dictLookup s.requests_map e.2 = some r)
    (hst : r.status ≠ "submitted") :
    cli_review s aid approve = (.alreadyHandled, { s with heap := rest }) ∧
    rest = s.heap.erase e ∧
    admin_review s aid = (.review e.2, { s with heap := rest }) := by
  refine ⟨?_, ?_, ?_⟩
  · simp [cli_review, ha, hp, hr, hst]
  · cases hh : s.heap with
    | nil => rw [hh] at hp; exact Option.noConfusion hp
    | cons x xs =>
        rw [hh] at hp
        simp [pop_heap] at hp
        obtain ⟨he, hrest⟩ := hp
        rw [← hrest, he]
  · simp [admin_review, ha, hp]

/-- C7 witness: in `staleHeapState` the heap's top entry refers to the
already-approved `R1`; the CLI reports "already handled" and drops the
entry without re-inserting it. -/
theorem C7_stale_review_witness :
    cli_review staleHeapState "a1" true =
      (.alreadyHandled, { staleHeapState with heap := [] }) ∧
    ([] : List HeapEntry) = staleHeapState.heap.erase (-5, "R1") :=
  ⟨(C7_stale_review staleHeapState "a1" true (-5, "R1") []
      { id := "R1", student_id := "s1", amount := 100,
        urgency := 5, status := "approved" }
      (by decide) (by decide) (by decide) (by decide)).1,
   (C7_stale_review staleHeapState "a1" true (-5, "R1") []
      { id := "R1", student_id := "s1", amount := 100,
        urgency := 5, status := "approved" }
      (by decide) (by decide) (by decide) (by decide)).2.1⟩

/-- C7 counterexample to the claim as stated: the popped request `R1`
is no longer `"submitted"` (it is `"approved"`), yet the web engine
returns it for decision instead of reporting "already handled". -/
theorem C7_counterexample :
    (dictLookup staleHeapState.requests_map "R1").map FundingRequest.status =
      some "approved" ∧
    (admin_review staleHeapState "a1").1 = WebReviewResult.review "R1" := by
  refine ⟨by decide, by decide⟩

/-! ## More association-list lemmas (membership, nodup keys) -/

theorem dictLookup_mem {α : Type} {d : List (String × α)} {k : String}
    {v : α} (h : dictLookup d k = some v) : (k, v) ∈ d := by
  induction d with
  | nil => exact Option.noConfusion h
  | cons kv rest ih =>
      obtain ⟨k', v'⟩ := kv
      by_cases hk : k' = k
      · subst hk
        simp [dictLookup] at h
        subst h
        simp
      · simp [dictLookup, hk] at h
        simp [ih h]

theorem dictLookup_of_mem_nodup {α : Type} {d : List (String × α)}
    {k : String} {v : α} (hnd : (dictKeys d).Nodup) (h : (k, v) ∈ d) :
    dictLookup d k = some v := by
  induction d with
  | nil => simp at h
  | cons kv rest ih =>
      obtain ⟨k', v'⟩ := kv
      have hnd' : k' ∉ dictKeys rest ∧ (dictKeys rest).Nodup := by
        rw [show dictKeys ((k', v') :: rest) = k' :: dictKeys rest from rfl,
          List.nodup_cons] at hnd
        exact hnd
      rcases List.mem_cons.mp h with h1 | h1
      · cases h1
        simp [dictLookup]
      · have hkmem : k ∈ dictKeys rest := List.mem_map_of_mem Prod.fst h1
        have hkne : k' ≠ k := fun he => hnd'.1 (he ▸ hkmem)
        rw [show dictLookup ((k', v') :: rest) k =
          (if k' = k then some v' else dictLookup rest k) from rfl, if_neg hkne]
        exact ih hnd'.2 h1

theorem mem_dictInsert {α : Type} {d : List (String × α)} {k : String}
    {v : α} {kv : String × α} (h : kv ∈ dictInsert d k v) :
    kv ∈ d ∨ kv = (k, v) := by
  induction d with
  | nil => simp [dictInsert] at h; simp [h]
  | cons kv' rest ih =>
      obtain ⟨k', v'⟩ := kv'
      by_cases hk : k' = k
      · simp [dictInsert, hk] at h
        rcases h with h | h
        · simp [h]
        · simp [h]
      · simp [dictInsert, hk] at h
        rcases h with h | h
        · simp [h]
        · rcases ih h with h1 | h1
          · simp [h1]
          · simp [h1]

theorem dictInsert_nodup_keys {α : Type} {d : List (String × α)}
    (k : String) (v : α) (hnd : (dictKeys d).Nodup) :
    (dictKeys (dictInsert d k v)).Nodup := by
  induction d with
  | nil => simp [dictInsert, dictKeys]
  | cons kv rest ih =>
      obtain ⟨k', v'⟩ := kv
      have hnd' : k' ∉ dictKeys rest ∧ (dictKeys rest).Nodup := by
        rw [show dictKeys ((k', v') :: rest) = k' :: dictKeys rest from rfl,
          List.nodup_cons] at hnd
        exact hnd
      by_cases hk : k' = k
      · subst hk
        have hstep : dictInsert ((k', v') :: rest) k' v = (k', v) :: rest := by
          simp [dictInsert]
        rw [hstep, show dictKeys ((k', v) :: rest) = k' :: dictKeys rest from rfl,
          List.nodup_cons]
        exact hnd'
      · simp only [dictInsert, if_neg hk]
        rw [show dictKeys ((k', v') :: dictInsert rest k v) =
          k' :: dictKeys (dictInsert rest k v) from rfl, List.nodup_cons]
        refine ⟨?_, ih hnd'.2⟩
        intro hmem
        rcases (mem_dictKeys_insert rest k k' v).mp hmem with h1 | h1
        · exact hnd'.1 h1
        · exact hk h1

/-! ## Load/save round-trip lemmas -/

theorem values_pair_eq {α : Type} (idf : α → String) (d : List (String × α))
    (h : ∀ kv ∈ d, idf kv.2 = kv.1) :
    (dictValues d).map (fun v => (idf v, v)) = d := by
  induction d with
  | nil => rfl
  | cons kv rest ih =>
      obtain ⟨k, v⟩ := kv
      have h1 : idf v = k := h (k, v) (by simp)
      show (idf v, v) :: (dictValues rest).map (fun v => (idf v, v)) =
        (k, v) :: rest
      rw [h1, ih fun kv hkv => h kv (List.mem_cons_of_mem _ hkv)]

theorem values_idf_eq_keys {α : Type} (idf : α → String)
    (d : List (String × α)) (h : ∀ kv ∈ d, idf kv.2 = kv.1) :
    (dictValues d).map idf = dictKeys d := by
  induction d with
  | nil => rfl
  | cons kv rest ih =>
      obtain ⟨k, v⟩ := kv
      have h1 : idf v = k := h (k, v) (by simp)
      show idf v :: (dictValues rest).map idf = k :: dictKeys rest
      rw [h1, ih fun kv hkv => h kv (List.mem_cons_of_mem _ hkv)]

theorem loadUsers_roundtrip (us : List User) :
    ∀ acc : List (String × User),
      (∀ u ∈ us, u.id ∉ dictKeys acc) → (us.map User.id).Nodup →
      loadUsers acc (us.map fun u =>
        { jid := some u.id, jname := some u.name, jrole := some u.role }) =
        .ok (acc ++ us.map fun u => (u.id, u)) := by
  induction us with
  | nil => intro acc _ _; simp [loadUsers]
  | cons u us ih =>
      intro acc hfresh hnodup
      rw [List.map_cons, List.nodup_cons] at hnodup
      simp only [List.map_cons, loadUsers]
      rw [dictInsert_fresh _ (hfresh u (by simp))]
      have hrec :
          ({ id := u.id,
             name := (some u.name).getD "",
             role := (some u.role).getD "student" } : User) = u := rfl
      rw [hrec]
      rw [ih (acc ++ [(u.id, u)]) ?fresh hnodup.2]
      · rw [List.append_assoc]
        rfl
      case fresh =>
        intro v hv
        rw [show dictKeys (acc ++ [(u.id, u)]) =
          dictKeys acc ++ [u.id] by simp [dictKeys]]
        intro hmem
        rcases List.mem_append.mp hmem with h1 | h1
        · exact hfresh v (List.mem_cons_of_mem _ hv) h1
        · have : v.id = u.id := by simpa using h1
          exact hnodup.1 (this ▸ List.mem_map_of_mem User.id hv)

theorem loadRequests_roundtrip (rs : List FundingRequest) :
    ∀ acc : List (String × FundingRequest),
      (∀ r ∈ rs, r.id ∉ dictKeys acc) → (rs.map FundingRequest.id).Nodup →
      loadRequests acc (rs.map fun r =>
        { jid := some r.id, jstudent_id := some r.student_id,
          jamount := .val r.amount, jurgency := .val r.urgency,
          jstatus := some r.status }) =
        .ok (acc ++ rs.map fun r => (r.id, r)) := by
  induction rs with
  | nil => intro acc _ _; simp [loadRequests]
  | cons r rs ih =>
      intro acc hfresh hnodup
      rw [List.map_cons, List.nodup_cons] at hnodup
      simp only [List.map_cons, loadRequests]
      rw [dictInsert_fresh _ (hfresh r (by simp))]
      have hrec :
          ({ id := r.id,
             student_id := (some r.student_id).getD "",
             amount := parseAmount (.val r.amount),
             urgency := parseUrgency (.val r.urgency),
             status := (some r.status).getD "submitted" } : FundingRequest) =
            r := rfl
      rw [hrec]
      rw [ih (acc ++ [(r.id, r)]) ?fresh hnodup.2]
      · rw [List.append_assoc]
        rfl
      case fresh =>
        intro v hv
        rw [show dictKeys (acc ++ [(r.id, r)]) =
          dictKeys acc ++ [r.id] by simp [dictKeys]]
        intro hmem
        rcases List.mem_append.mp hmem with h1 | h1
        · exact hfresh v (List.mem_cons_of_mem _ hv) h1
        · have : v.id = r.id := by simpa using h1
          exact hnodup.1 (this ▸ List.mem_map_of_mem FundingRequest.id hv)

/-! ## Rebuild characterization -/

theorem rebuildStructures_aux (rs : List FundingRequest) :
    ∀ (t : RequestBST) (h : List HeapEntry) (q : List String),
      rs.foldl
        (fun acc r =>
          (acc.1.insert r,
           if r.status = "submitted" then push_heap acc.2.1 r else acc.2.1,
           if r.status = "approved" then enqueue acc.2.2 r.id else acc.2.2))
        (t, h, q) =
      (rs.foldl RequestBST.insert t,
       ((rs.filter fun r => r.status == "submitted").map
          (fun r => (-r.urgency, r.id))).reverse ++ h,
       q ++ (rs.filter fun r => r.status == "approved").map
          FundingRequest.id) := by
  induction rs with
  | nil => intro t h q; simp
  | cons r rs ih =>
      intro t h q
      rw [List.foldl_cons, List.foldl_cons, List.filter_cons, List.filter_cons]
      by_cases h1 : r.status = "submitted"
      · have h2 : ¬ r.status = "approved" := by rw [h1]; decide
        rw [ih]
        simp [h1, h2, push_heap, enqueue]
      · by_cases h2 : r.status = "approved"
        · rw [ih]
          simp [h1, h2, push_heap, enqueue]
        · rw [ih]
          simp [h1, h2]

theorem rebuildStructures_eq (rs : List FundingRequest) :
    rebuildStructures rs =
      (buildBST rs,
       ((rs.filter fun r => r.status == "submitted").map
          (fun r => (-r.urgency, r.id))).reverse,
       (rs.filter fun r => r.status == "approved").map FundingRequest.id) := by
  unfold rebuildStructures buildBST
  rw [rebuildStructures_aux]
  simp

/-! ## Properties of loaded maps -/

theorem loadRequests_props (rs : List JRequest) :
    ∀ (acc m : List (String × FundingRequest)),
      loadRequests acc rs = .ok m →
      (∀ kv ∈ acc, kv.2.id = kv.1) → (dictKeys acc).Nodup →
      ((∀ kv ∈ m, kv.2.id = kv.1) ∧ (dictKeys m).Nodup) := by
  induction rs with
  | nil =>
      intro acc m hok hid hnd
      rw [loadRequests] at hok
      obtain rfl := Except.ok.inj hok
      exact ⟨hid, hnd⟩
  | cons r rs ih =>
      intro acc m hok hid hnd
      rw [loadRequests] at hok
      cases hj : r.jid with
      | none => rw [hj] at hok; exact Except.noConfusion hok
      | some i =>
          rw [hj] at hok
          refine ih _ m hok ?_ (dictInsert_nodup_keys _ _ hnd)
          intro kv hkv
          rcases mem_dictInsert hkv with h1 | h1
          · exact hid kv h1
          · rw [h1]

theorem dictLookup_iff_values {m : List (String × FundingRequest)}
    (hid : ∀ kv ∈ m, kv.2.id = kv.1) (hnd : (dictKeys m).Nodup)
    (k : String) (r : FundingRequest) :
    dictLookup m k = some r ↔ (r ∈ dictValues m ∧ r.id = k) := by
  constructor
  · intro h
    have hm := dictLookup_mem h
    exact ⟨List.mem_map_of_mem Prod.snd hm, hid (k, r) hm⟩
  · rintro ⟨hv, hik⟩
    obtain ⟨⟨k0, r0⟩, hkv, hsnd⟩ := List.mem_map.mp hv
    have hr0 : r0 = r := hsnd
    subst hr0
    have hk : k0 = k := by
      have := hid (k0, r0) hkv
      rw [← hik]
      exact this.symm
    subst hk
    exact dictLookup_of_mem_nodup hnd hkv

theorem invPair_rebuild (m : List (String × FundingRequest))
    (hid : ∀ kv ∈ m, kv.2.id = kv.1) (hnd : (dictKeys m).Nodup) :
    invPair m
      (((dictValues m).filter fun r => r.status == "approved").map
        FundingRequest.id) = true := by
  rw [invPair_iff]
  constructor
  · intro rid hrid
    obtain ⟨r, hrf, hridr⟩ := List.mem_map.mp hrid
    have hmem := List.mem_filter.mp hrf
    have hst : r.status = "approved" := by simpa using hmem.2
    exact ⟨r, (dictLookup_iff_values hid hnd rid r).mpr ⟨hmem.1, hridr⟩, hst⟩
  · intro k r hl
    have hv := (dictLookup_iff_values hid hnd k r).mp hl
    constructor
    · intro hst
      exact List.mem_map.mpr ⟨r, List.mem_filter.mpr ⟨hv.1, by simp [hst]⟩, hv.2⟩
    · intro hq
      obtain ⟨r', hrf', hid'⟩ := List.mem_map.mp hq
      have hmem' := List.mem_filter.mp hrf'
      have hl' : dictLookup m k = some r' :=
        (dictLookup_iff_values hid hnd k r').mpr ⟨hmem'.1, hid'⟩
      rw [hl] at hl'
      obtain rfl := Option.some.inj hl'
      simpa using hmem'.2

theorem load_state_parsed_requests {p : Payload}
    {users : List (String × User)}
    {requests : List (String × FundingRequest)}
    (h : load_state (.parsed p) = .ok (users, requests)) :
    loadRequests [] p.requests = .ok requests := by
  have h' : (match loadUsers [] p.users with
      | Except.error e => Except.error e
      | Except.ok us =>
          match loadRequests [] p.requests with
          | Except.error e => Except.error e
          | Except.ok rs =>
              Except.ok (us, rs)) = Except.ok (users, requests) := h
  cases hu : loadUsers [] p.users with
  | error e => rw [hu] at h'; exact Except.noConfusion h'
  | ok us =>
      rw [hu] at h'
      cases hr : loadRequests [] p.requests with
      | error e => rw [hr] at h'; exact Except.noConfusion h'
      | ok rs =>
          rw [hr] at h'
          have h2 := Except.ok.inj h'
          rw [show requests = rs from ((Prod.mk.injEq _ _ _ _).mp h2).2.symm]

/-! ## C3 — the ApprovedQueue/status invariant -/

/-- C3 (amended): the invariant "a request is in ApprovedQueue iff its
status is `"approved"`" is preserved by SubmitRequest (whose freshly
allocated id is not already present), by ReviewNext on both paths, by
Decide *when the decided request's current status is `"submitted"`*, by
Donate, and it is established by load.  (Decide on a request that is no
longer `"submitted"` can break it — see the counterexample.) -/
theorem C3_approved_queue_invariant (s : EngineState)
    (hInv : approvedInvB s = true) :
    (∀ sid a u,
      dictLookup s.requests_map ("R" ++ toString s.req_counter) = none →
      approvedInvB (submit s sid a u).2 = true) ∧
    (∀ aid, approvedInvB (admin_review s aid).2 = true) ∧
    (∀ aid ap, approvedInvB (cli_review s aid ap).2 = true) ∧
    (∀ rid r ap, dictLookup s.requests_map rid = some r →
      r.status = "submitted" → approvedInvB (admin_decide s rid ap).2 = true) ∧
    (∀ dn rid a', approvedInvB (donate s dn rid a').2 = true) ∧
    (∀ input st, engineLoad input = .ok st → approvedInvB st = true) := by
  refine ⟨?_, ?_, ?_, ?_, ?_, ?_⟩
  · intro sid a u hfresh
    by_cases hrole : hasRole s sid "student"
    · cases a with
      | none => simpa [submit, hrole] using hInv
      | some av =>
          cases u with
          | none => simpa [submit, hrole] using hInv
          | some uv =>
              have h1 := @invPair_fresh s.requests_map s.approved_q
                ("R" ++ toString s.req_counter)
                { id := "R" ++ toString s.req_counter, student_id := sid,
                  amount := av, urgency := uv, status := "submitted" }
                hInv hfresh rfl
              simpa [submit, hrole, approvedInvB] using h1
    · simpa [submit, hrole] using hInv
  · intro aid
    by_cases ha : hasRole s aid "admin"
    · cases hp : pop_heap s.heap with
      | none => simpa [admin_review, ha, hp] using hInv
      | some pr => simpa [admin_review, ha, hp] using hInv
    · simpa [admin_review, ha] using hInv
  · intro aid ap
    by_cases ha : hasRole s aid "admin"
    · cases hp : pop_heap s.heap with
      | none => simpa [cli_review, ha, hp] using hInv
      | some pr =>
          obtain ⟨e, rest⟩ := pr
          cases hl : dictLookup s.requests_map e.2 with
          | none => simpa [cli_review, ha, hp, hl] using hInv
          | some r =>
              by_cases hst : r.status = "submitted"
              · cases ap with
                | true =>
                    have h1 := invPair_approve hInv hl hst
                    simpa [cli_review, ha, hp, hl, hst, enqueue,
                      approvedInvB] using h1
                | false =>
                    have h1 := invPair_reject hInv hl hst
                    simpa [cli_review, ha, hp, hl, hst,
                      approvedInvB] using h1
              · simpa [cli_review, ha, hp, hl, hst] using hInv
    · simpa [cli_review, ha] using hInv
  · intro rid r ap hl hst
    cases ap with
    | true =>
        have h1 := invPair_approve hInv hl hst
        simpa [admin_decide, hl, enqueue, approvedInvB] using h1
    | false =>
        have h1 := invPair_reject hInv hl hst
        simpa [admin_decide, hl, approvedInvB] using h1
  · intro dn rid a'
    cases a' with
    | none => simpa [donate] using hInv
    | some av =>
        by_cases hd : hasRole s dn "donor"
        · cases hl : dictLookup s.requests_map rid with
          | none => simpa [donate, hd, hl] using hInv
          | some r =>
              by_cases hst : r.status = "approved"
              · by_cases hge : av ≥ r.amount
                · have h1 := invPair_fund hInv hl
                  simpa [donate, hd, hl, hst, hge, approvedInvB] using h1
                · simpa [donate, hd, hl, hst, hge] using hInv
              · simpa [donate, hd, hl, hst] using hInv
        · simpa [donate, hd] using hInv
  · intro input st hok
    cases input with
    | fileMissing =>
        have h1 : engineLoad LoadInput.fileMissing =
            .ok { users_set := [], users_map := [], requests_map := [],
                  bst := .leaf, heap := [], approved_q := [],
                  req_counter := 1 } := rfl
        rw [h1] at hok
        obtain rfl := Except.ok.inj hok
        decide
    | unparseable =>
        have h1 : engineLoad LoadInput.unparseable =
            .ok { users_set := [], users_map := [], requests_map := [],
                  bst := .leaf, heap := [], approved_q := [],
                  req_counter := 1 } := rfl
        rw [h1] at hok
        obtain rfl := Except.ok.inj hok
        decide
    | parsed p =>
        cases hls : load_state (.parsed p) with
        | error e =>
            have h1 : engineLoad (.parsed p) = .error e := by
              unfold engineLoad
              rw [hls]
            rw [h1] at hok
            exact Except.noConfusion hok
        | ok pr =>
            obtain ⟨users, requests⟩ := pr
            have h1 : engineLoad (.parsed p) =
                .ok { users_set := dictKeys users, users_map := users,
                      requests_map := requests,
                      bst := (rebuildStructures (dictValues requests)).1,
                      heap := (rebuildStructures (dictValues requests)).2.1,
                      approved_q := (rebuildStructures (dictValues requests)).2.2,
                      req_counter := if requests = [] then 1
                        else recomputeCounter (dictKeys requests) } := by
              unfold engineLoad
              rw [hls]
            rw [h1] at hok
            obtain rfl := Except.ok.inj hok
            have hreq := load_state_parsed_requests hls
            have hprops := loadRequests_props p.requests [] requests hreq
              (by simp) (by simp [dictKeys])
            show invPair requests
              ((rebuildStructures (dictValues requests)).2.2) = true
            rw [rebuildStructures_eq]
            exact invPair_rebuild requests hprops.1 hprops.2

/-- C3 witness at a concrete state satisfying the invariant: donating
to `R1` and submitting a fresh request both preserve it. -/
theorem C3_approved_queue_invariant_witness :
    approvedInvB approvedState = true ∧
    approvedInvB (donate approvedState "d1" "R1" (some 100)).2 = true ∧
    approvedInvB (submit approvedState "s1" (some 50) (some 3)).2 = true :=
  ⟨by decide,
   (C3_approved_queue_invariant approvedState (by decide)).2.2.2.2.1
     "d1" "R1" (some 100),
   (C3_approved_queue_invariant approvedState (by decide)).1
     "s1" (some 50) (some 3) (by decide)⟩

/-- C3 counterexample to the claim as stated: the invariant holds in
`approvedState`, but Decide(R1, reject) — a legal call of the engine's
Decide operation — leaves `R1` in ApprovedQueue while setting its
status to `"rejected"`, breaking the iff. -/
theorem C3_counterexample :
    approvedInvB approvedState = true ∧
    (admin_decide approvedState "R1" false).1 = DecideResult.rejectedOk ∧
    "R1" ∈ (admin_decide approvedState "R1" false).2.approved_q ∧
    (dictLookup (admin_decide approvedState "R1" false).2.requests_map
      "R1").map FundingRequest.status = some "rejected" ∧
    approvedInvB (admin_decide approvedState "R1" false).2 = false := by
  refine ⟨by decide, by decide, by decide, by decide, by decide⟩

/-! ## takeWhile/dropWhile splitting lemmas -/

theorem takeWhile_append_neg {α : Type} (p : α → Bool) (xs : List α) (v : α)
    (ys : List α) (hv : p v = false) :
    (xs ++ v :: ys).takeWhile p = xs.takeWhile p := by
  induction xs with
  | nil => simp [List.takeWhile_cons, hv]
  | cons x xs ih =>
      by_cases hx : p x
      · simp [List.takeWhile_cons, hx, ih]
      · simp [List.takeWhile_cons, hx]

theorem dropWhile_append_neg {α : Type} (p : α → Bool) (xs : List α) (v : α)
    (ys : List α) (hv : p v = false) :
    (xs ++ v :: ys).dropWhile p = xs.dropWhile p ++ v :: ys := by
  induction xs with
  | nil => simp [List.dropWhile_cons, hv]
  | cons x xs ih =>
      by_cases hx : p x
      · simp [List.dropWhile_cons, hx, ih]
      · simp [List.dropWhile_cons, hx]

theorem takeWhile_append_pos {α : Type} (p : α → Bool) (xs ys : List α)
    (h : ∀ x ∈ xs, p x = true) :
    (xs ++ ys).takeWhile p = xs ++ ys.takeWhile p := by
  induction xs with
  | nil => simp
  | cons x xs ih =>
      have hx : p x = true := h x (by simp)
      simp only [List.cons_append, List.takeWhile_cons, hx, if_true]
      rw [ih fun x hx => h x (List.mem_cons_of_mem _ hx)]

theorem dropWhile_append_pos {α : Type} (p : α → Bool) (xs ys : List α)
    (h : ∀ x ∈ xs, p x = true) :
    (xs ++ ys).dropWhile p = ys.dropWhile p := by
  induction xs with
  | nil => simp
  | cons x xs ih =>
      have hx : p x = true := h x (by simp)
      simp only [List.cons_append, List.dropWhile_cons, hx, if_true]
      rw [ih fun x hx => h x (List.mem_cons_of_mem _ hx)]

/-! ## BST invariant lemmas -/

theorem treeAll_insert {p : FundingRequest → Prop} {t : RequestBST}
    {r : FundingRequest} (ht : treeAll p t) (hr : p r) :
    treeAll p (t.insert r) := by
  induction t with
  | leaf => exact ⟨trivial, hr, trivial⟩
  | node l v rt ihl ihr =>
      obtain ⟨h1, h2, h3⟩ := ht
      by_cases hc : r.amount < v.amount
      · rw [show (RequestBST.node l v rt).insert r = .node (l.insert r) v rt
          by simp [RequestBST.insert, hc]]
        exact ⟨ihl h1, h2, h3⟩
      · rw [show (RequestBST.node l v rt).insert r = .node l v (rt.insert r)
          by simp [RequestBST.insert, hc]]
        exact ⟨h1, h2, ihr h3⟩

theorem bstInv_insert {t : RequestBST} (r : FundingRequest) (ht : bstInv t) :
    bstInv (t.insert r) := by
  induction t with
  | leaf => exact ⟨trivial, trivial, trivial, trivial⟩
  | node l v rt ihl ihr =>
      obtain ⟨h1, h2, h3, h4⟩ := ht
      by_cases hc : r.amount < v.amount
      · rw [show (RequestBST.node l v rt).insert r = .node (l.insert r) v rt
          by simp [RequestBST.insert, hc]]
        exact ⟨treeAll_insert h1 hc, h2, ihl h3, h4⟩
      · rw [show (RequestBST.node l v rt).insert r = .node l v (rt.insert r)
          by simp [RequestBST.insert, hc]]
        exact ⟨h1, treeAll_insert h2 (not_lt.mp hc), h3, ihr h4⟩

theorem treeAll_mem_inorder {p : FundingRequest → Prop} {t : RequestBST}
    (ht : treeAll p t) : ∀ x ∈ t.inorder, p x := by
  induction t with
  | leaf => intro x hx; simp [RequestBST.inorder] at hx
  | node l v rt ihl ihr =>
      obtain ⟨h1, h2, h3⟩ := ht
      intro x hx
      rw [show (RequestBST.node l v rt).inorder =
        l.inorder ++ v :: rt.inorder from rfl] at hx
      rcases List.mem_append.mp hx with hx | hx
      · exact ihl h1 x hx
      · rcases List.mem_cons.mp hx with hx | hx
        · rw [hx]; exact h2
        · exact ihr h3 x hx

/-- Where `RequestBST.insert` places the new request inside the inorder
traversal: directly after every element with amount `≤ r.amount` and
before every strictly larger one. -/
theorem inorder_insert (t : RequestBST) (r : FundingRequest)
    (ht : bstInv t) :
    (t.insert r).inorder =
      t.inorder.takeWhile (fun x => decide (x.amount ≤ r.amount)) ++
        r :: t.inorder.dropWhile (fun x => decide (x.amount ≤ r.amount)) := by
  induction t with
  | leaf => simp [RequestBST.insert, RequestBST.inorder]
  | node l v rt ihl ihr =>
      obtain ⟨h1, h2, h3, h4⟩ := ht
      by_cases hc : r.amount < v.amount
      · have hv : (decide (v.amount ≤ r.amount)) = false := by
          simp [not_le.mpr hc]
        rw [show (RequestBST.node l v rt).insert r = .node (l.insert r) v rt
          by simp [RequestBST.insert, hc]]
        rw [show (RequestBST.node (l.insert r) v rt).inorder =
          (l.insert r).inorder ++ v :: rt.inorder from rfl]
        rw [ihl h3]
        rw [show (RequestBST.node l v rt).inorder =
          l.inorder ++ v :: rt.inorder from rfl]
        rw [takeWhile_append_neg (fun x => decide (x.amount ≤ r.amount))
          l.inorder v rt.inorder hv]
        rw [dropWhile_append_neg (fun x => decide (x.amount ≤ r.amount))
          l.inorder v rt.inorder hv]
        simp
      · have hge : v.amount ≤ r.amount := not_lt.mp hc
        have hall : ∀ x ∈ l.inorder ++ [v],
            (fun x => decide (x.amount ≤ r.amount)) x = true := by
          intro x hx
          rcases List.mem_append.mp hx with hx | hx
          · have hlt := treeAll_mem_inorder h1 x hx
            simp [le_of_lt (lt_of_lt_of_le hlt hge)]
          · have hxv : x = v := by simpa using hx
            rw [hxv]
            simp [hge]
        rw [show (RequestBST.node l v rt).insert r = .node l v (rt.insert r)
          by simp [RequestBST.insert, hc]]
        rw [show (RequestBST.node l v (rt.insert r)).inorder =
          l.inorder ++ v :: (rt.insert r).inorder from rfl]
        rw [ihr h4]
        rw [show (RequestBST.node l v rt).inorder =
          l.inorder ++ v :: rt.inorder from rfl]
        rw [show l.inorder ++ v :: rt.inorder =
          (l.inorder ++ [v]) ++ rt.inorder by simp]
        rw [takeWhile_append_pos (fun x => decide (x.amount ≤ r.amount))
          (l.inorder ++ [v]) rt.inorder hall]
        rw [dropWhile_append_pos (fun x => decide (x.amount ≤ r.amount))
          (l.inorder ++ [v]) rt.inorder hall]
        simp

/-! ## The BST traversal is the stable sort by amount -/

theorem sortedInsert_eq (r : FundingRequest) (xs : List FundingRequest) :
    sortedInsert r xs =
      xs.takeWhile (fun x => decide (x.amount ≤ r.amount)) ++
        r :: xs.dropWhile (fun x => decide (x.amount ≤ r.amount)) := by
  induction xs with
  | nil => simp [sortedInsert]
  | cons x xs ih =>
      by_cases hx : x.amount ≤ r.amount
      · simp [sortedInsert, hx, List.takeWhile_cons, List.dropWhile_cons, ih]
      · simp [sortedInsert, hx, List.takeWhile_cons, List.dropWhile_cons]

theorem inorder_foldl_insert (l : List FundingRequest) :
    ∀ t : RequestBST, bstInv t →
      (l.foldl RequestBST.insert t).inorder =
        l.foldl (fun acc r => sortedInsert r acc) t.inorder := by
  induction l with
  | nil => intro t _; rfl
  | cons r l ih =>
      intro t ht
      rw [List.foldl_cons, List.foldl_cons]
      rw [ih (t.insert r) (bstInv_insert r ht)]
      rw [inorder_insert t r ht, ← sortedInsert_eq]

/-- The source's `inorder` of the insertion-built BST is exactly the
specification's stable sort by amount. -/
theorem inorder_buildBST (l : List FundingRequest) :
    (buildBST l).inorder = stableSortAmt l := by
  unfold buildBST stableSortAmt
  exact inorder_foldl_insert l .leaf trivial

theorem sortedInsert_perm (r : FundingRequest) (xs : List FundingRequest) :
    (sortedInsert r xs).Perm (r :: xs) := by
  rw [sortedInsert_eq]
  have h := @List.perm_middle _ r
    (xs.takeWhile fun x => decide (x.amount ≤ r.amount))
    (xs.dropWhile fun x => decide (x.amount ≤ r.amount))
  rw [List.takeWhile_append_dropWhile] at h
  exact h

theorem stableSortAux_perm (l : List FundingRequest) :
    ∀ acc, (l.foldl (fun acc r => sortedInsert r acc) acc).Perm (acc ++ l) := by
  induction l with
  | nil => intro acc; simp
  | cons r l ih =>
      intro acc
      rw [List.foldl_cons]
      refine (ih (sortedInsert r acc)).trans ?_
      refine (List.Perm.append_right l (sortedInsert_perm r acc)).trans ?_
      simpa using (@List.perm_middle _ r acc l).symm

/-- Shared helper: the traversal is a permutation of the submissions. -/
theorem inorder_buildBST_perm (l : List FundingRequest) :
    ((buildBST l).inorder).Perm l := by
  rw [inorder_buildBST]
  simpa using stableSortAux_perm l []

theorem mem_sortedInsert {y r : FundingRequest} {xs : List FundingRequest} :
    y ∈ sortedInsert r xs ↔ y = r ∨ y ∈ xs := by
  rw [(sortedInsert_perm r xs).mem_iff]
  simp

theorem sortedInsert_pairwise (r : FundingRequest) (xs : List FundingRequest)
    (h : xs.Pairwise fun a b => a.amount ≤ b.amount) :
    (sortedInsert r xs).Pairwise fun a b => a.amount ≤ b.amount := by
  induction xs with
  | nil => simp [sortedInsert]
  | cons x xs ih =>
      rw [List.pairwise_cons] at h
      by_cases hx : x.amount ≤ r.amount
      · rw [show sortedInsert r (x :: xs) = x :: sortedInsert r xs
          by simp [sortedInsert, hx]]
        rw [List.pairwise_cons]
        refine ⟨?_, ih h.2⟩
        intro y hy
        rcases mem_sortedInsert.mp hy with hy | hy
        · rw [hy]; exact hx
        · exact h.1 y hy
      · rw [show sortedInsert r (x :: xs) = r :: x :: xs
          by simp [sortedInsert, hx]]
        rw [List.pairwise_cons]
        refine ⟨?_, List.pairwise_cons.mpr h⟩
        intro y hy
        rcases List.mem_cons.mp hy with hy | hy
        · rw [hy]; exact le_of_lt (not_le.mp hx)
        · exact le_trans (le_of_lt (not_le.mp hx)) (h.1 y hy)

theorem stableSortAux_pairwise (l : List FundingRequest) :
    ∀ acc, acc.Pairwise (fun a b => a.amount ≤ b.amount) →
      (l.foldl (fun acc r => sortedInsert r acc) acc).Pairwise
        fun a b => a.amount ≤ b.amount := by
  induction l with
  | nil => intro acc hacc; simpa using hacc
  | cons r l ih =>
      intro acc hacc
      rw [List.foldl_cons]
      exact ih (sortedInsert r acc) (sortedInsert_pairwise r acc hacc)

theorem filter_amount_sortedInsert_eq (q : ℚ) (r : FundingRequest)
    (xs : List FundingRequest)
    (hs : xs.Pairwise fun a b => a.amount ≤ b.amount) (hr : r.amount = q) :
    (sortedInsert r xs).filter (fun x => decide (x.amount = q)) =
      xs.filter (fun x => decide (x.amount = q)) ++ [r] := by
  induction xs with
  | nil => simp [sortedInsert, hr]
  | cons x xs ih =>
      rw [List.pairwise_cons] at hs
      by_cases hx : x.amount ≤ r.amount
      · rw [show sortedInsert r (x :: xs) = x :: sortedInsert r xs
          by simp [sortedInsert, hx]]
        by_cases hfx : x.amount = q
        · simp [List.filter_cons, hfx, ih hs.2]
        · simp [List.filter_cons, hfx, ih hs.2]
      · rw [show sortedInsert r (x :: xs) = r :: x :: xs
          by simp [sortedInsert, hx]]
        have hxgt : q < x.amount := hr ▸ (not_le.mp hx)
        have hnone : ∀ y ∈ x :: xs, ¬ (y.amount = q) := by
          intro y hy
          rcases List.mem_cons.mp hy with hy | hy
          · rw [hy]
            intro he
            exact absurd (he ▸ hxgt) (lt_irrefl q)
          · have hqy : q < y.amount := lt_of_lt_of_le hxgt (hs.1 y hy)
            intro he
            exact absurd (he ▸ hqy) (lt_irrefl q)
        have hfilter : (x :: xs).filter (fun x => decide (x.amount = q)) = [] := by
          rw [List.filter_eq_nil_iff]
          intro a ha
          simpa using hnone a ha
        rw [List.filter_cons, hfilter]
        simp [hr]

theorem filter_amount_sortedInsert_ne (q : ℚ) (r : FundingRequest)
    (xs : List FundingRequest) (hr : ¬ r.amount = q) :
    (sortedInsert r xs).filter (fun x => decide (x.amount = q)) =
      xs.filter (fun x => decide (x.amount = q)) := by
  induction xs with
  | nil => simp [sortedInsert, hr]
  | cons x xs ih =>
      by_cases hx : x.amount ≤ r.amount
      · rw [show sortedInsert r (x :: xs) = x :: sortedInsert r xs
          by simp [sortedInsert, hx]]
        rw [List.filter_cons, List.filter_cons, ih]
      · rw [show sortedInsert r (x :: xs) = r :: x :: xs
          by simp [sortedInsert, hx]]
        rw [List.filter_cons]
        simp [hr]

theorem stableSortAux_filter (q : ℚ) (l : List FundingRequest) :
    ∀ acc, acc.Pairwise (fun a b => a.amount ≤ b.amount) →
      (l.foldl (fun acc r => sortedInsert r acc) acc).filter
          (fun x => decide (x.amount = q)) =
        acc.filter (fun x => decide (x.amount = q)) ++
          l.filter (fun x => decide (x.amount = q)) := by
  induction l with
  | nil => intro acc _; simp
  | cons r l ih =>
      intro acc hacc
      rw [List.foldl_cons]
      rw [ih (sortedInsert r acc) (sortedInsert_pairwise r acc hacc)]
      by_cases hr : r.amount = q
      · rw [filter_amount_sortedInsert_eq q r acc hacc hr, List.filter_cons]
        simp [hr]
      · rw [filter_amount_sortedInsert_ne q r acc hr, List.filter_cons]
        simp [hr]

/-! ## C6 — AmountIndex orderedView -/

/-- C6 (confirmed): for every submission sequence, the BST's inorder
traversal is a permutation of the submitted requests (hence lists
exactly the submitted ids, none dropped and none duplicated), it is
non-decreasing in amount, equal amounts appear in their original
insertion order (the filter at any fixed amount equals the filter of
the submission sequence), and no later operation — Decide, Donate, or
either review path — ever modifies the BST. -/
theorem C6_orderedView (l : List FundingRequest) :
    ((buildBST l).inorder).Perm l ∧
    (((buildBST l).inorder.map FundingRequest.id)).Perm
      (l.map FundingRequest.id) ∧
    ((buildBST l).inorder).Pairwise (fun a b => a.amount ≤ b.amount) ∧
    (∀ q : ℚ, (buildBST l).inorder.filter (fun x => decide (x.amount = q)) =
      l.filter (fun x => decide (x.amount = q))) ∧
    (∀ (s : EngineState) (rid : String) (ap : Bool) (dn : String)
        (a' : Option ℚ) (aid : String),
      (admin_decide s rid ap).2.bst = s.bst ∧
      (donate s dn rid a').2.bst = s.bst ∧
      (cli_review s aid ap).2.bst = s.bst ∧
      (admin_review s aid).2.bst = s.bst) := by
  refine ⟨inorder_buildBST_perm l, (inorder_buildBST_perm l).map _, ?_, ?_, ?_⟩
  · rw [inorder_buildBST]
    exact stableSortAux_pairwise l [] (by simp)
  · intro q
    rw [inorder_buildBST]
    simpa using stableSortAux_filter q l [] (by simp)
  · intro s rid ap dn a' aid
    refine ⟨?_, ?_, ?_, ?_⟩
    · cases hl : dictLookup s.requests_map rid with
      | none => simp [admin_decide, hl]
      | some r => cases ap <;> simp [admin_decide, hl]
    · cases a' with
      | none => simp [donate]
      | some av =>
          by_cases hd : hasRole s dn "donor"
          · cases hl : dictLookup s.requests_map rid with
            | none => simp [donate, hd, hl]
            | some r =>
                by_cases hst : r.status = "approved"
                · by_cases hge : av ≥ r.amount
                  · simp [donate, hd, hl, hst, hge]
                  · simp [donate, hd, hl, hst, hge]
                · simp [donate, hd, hl, hst]
          · simp [donate, hd]
    · by_cases ha : hasRole s aid "admin"
      · cases hp : pop_heap s.heap with
        | none => simp [cli_review, ha, hp]
        | some pr =>
            obtain ⟨e, rest⟩ := pr
            cases hl : dictLookup s.requests_map e.2 with
            | none => simp [cli_review, ha, hp, hl]
            | some r =>
                by_cases hst : r.status = "submitted"
                · cases ap <;> simp [cli_review, ha, hp, hl, hst]
                · simp [cli_review, ha, hp, hl, hst]
      · simp [cli_review, ha]
    · by_cases ha : hasRole s aid "admin"
      · cases hp : pop_heap s.heap with
        | none => simp [admin_review, ha, hp]
        | some pr => simp [admin_review, ha, hp]
      · simp [admin_review, ha]

/-- C6 witness: a concrete two-request run whose traversal swaps the
submissions into ascending amount order. -/
theorem C6_orderedView_witness :
    ((buildBST
      [{ id := "R1", student_id := "s1", amount := 100, urgency := 5,
         status := "submitted" },
       { id := "R2", student_id := "s1", amount := 50, urgency := 9,
         status := "submitted" }]).inorder).Pairwise
      (fun a b => a.amount ≤ b.amount) ∧
    ((buildBST
      [{ id := "R1", student_id := "s1", amount := 100, urgency := 5,
         status := "submitted" },
       { id := "R2", student_id := "s1", amount := 50, urgency := 9,
         status := "submitted" }]).inorder.map FundingRequest.id).Perm
      ["R1", "R2"] :=
  ⟨(C6_orderedView
      [{ id := "R1", student_id := "s1", amount := 100, urgency := 5,
         status := "submitted" },
       { id := "R2", student_id := "s1", amount := 50, urgency := 9,
         status := "submitted" }]).2.2.1,
   (C6_orderedView
      [{ id := "R1", student_id := "s1", amount := 100, urgency := 5,
         status := "submitted" },
       { id := "R2", student_id := "s1", amount := 50, urgency := 9,
         status := "submitted" }]).2.1⟩

/-! ## C8 — save/load round trip -/

/-- C8 (confirmed): for any in-memory state whose maps are keyed by the
record ids (as the engine always keeps them), `save_state` followed by
`load_state` reproduces the exact UserRegistry and RequestStore — same
ids, same field values, same statuses — and the reconstruction loop
re-derives the index memberships from status alone: the BST receives
every loaded request, the heap exactly the `"submitted"` ones, and the
approved queue exactly the `"approved"` ones. -/
theorem C8_save_load_roundtrip (users : List (String × User))
    (requests : List (String × FundingRequest))
    (hu : ∀ kv ∈ users, kv.2.id = kv.1)
    (hr : ∀ kv ∈ requests, kv.2.id = kv.1)
    (hnu : (dictKeys users).Nodup)
    (hnr : (dictKeys requests).Nodup) :
    load_state (.parsed (save_state users requests)) = .ok (users, requests) ∧
    rebuildStructures (dictValues requests) =
      (buildBST (dictValues requests),
       (((dictValues requests).filter fun r => r.status == "submitted").map
          (fun r => (-r.urgency, r.id))).reverse,
       ((dictValues requests).filter fun r => r.status == "approved").map
          FundingRequest.id) ∧
    ((rebuildStructures (dictValues requests)).1.inorder).Perm
      (dictValues requests) := by
  have hu1 : loadUsers [] ((dictValues users).map fun u =>
      { jid := some u.id, jname := some u.name, jrole := some u.role }) =
      .ok users := by
    rw [loadUsers_roundtrip (dictValues users) [] (by simp [dictKeys])
      (by rw [values_idf_eq_keys User.id users hu]; exact hnu)]
    rw [List.nil_append, values_pair_eq User.id users hu]
  have hr1 : loadRequests [] ((dictValues requests).map fun r =>
      { jid := some r.id, jstudent_id := some r.student_id,
        jamount := .val r.amount, jurgency := .val r.urgency,
        jstatus := some r.status }) =
      .ok requests := by
    rw [loadRequests_roundtrip (dictValues requests) [] (by simp [dictKeys])
      (by rw [values_idf_eq_keys FundingRequest.id requests hr]; exact hnr)]
    rw [List.nil_append, values_pair_eq FundingRequest.id requests hr]
  refine ⟨?_, rebuildStructures_eq (dictValues requests), ?_⟩
  · show (match loadUsers [] ((dictValues users).map fun (u : User) =>
        { jid := some u.id, jname := some u.name, jrole := some u.role }) with
      | Except.error e => Except.error e
      | Except.ok us =>
          match loadRequests [] ((dictValues requests).map
            fun (r : FundingRequest) =>
            { jid := some r.id, jstudent_id := some r.student_id,
              jamount := .val r.amount, jurgency := .val r.urgency,
              jstatus := some r.status }) with
          | Except.error e => Except.error e
          | Except.ok rs => Except.ok (us, rs)) = .ok (users, requests)
    rw [hu1, hr1]
  · rw [show (rebuildStructures (dictValues requests)).1 =
      buildBST (dictValues requests) by rw [rebuildStructures_eq]]
    exact inorder_buildBST_perm (dictValues requests)

/-- C8 witness: a concrete one-user, one-request state survives the
round trip, and the rebuilt heap/queue hold exactly the right ids. -/
theorem C8_save_load_roundtrip_witness :
    load_state (.parsed (save_state
      [("s1", { id := "s1", name := "Ana", role := "student" })]
      [("R1", { id := "R1", student_id := "s1", amount := 100,
                urgency := 5, status := "approved" })])) =
      .ok ([("s1", { id := "s1", name := "Ana", role := "student" })],
           [("R1", { id := "R1", student_id := "s1", amount := 100,
                     urgency := 5, status := "approved" })]) ∧
    (rebuildStructures
      [{ id := "R1", student_id := "s1", amount := 100,
         urgency := 5, status := "approved" }]).2.2 = ["R1"] ∧
    (rebuildStructures
      [{ id := "R1", student_id := "s1", amount := 100,
         urgency := 5, status := "approved" }]).2.1 = [] :=
  ⟨(C8_save_load_roundtrip
      [("s1", { id := "s1", name := "Ana", role := "student" })]
      [("R1", { id := "R1", student_id := "s1", amount := 100,
                urgency := 5, status := "approved" })]
      (by decide) (by decide) (by decide) (by decide)).1,
   by decide, by decide⟩

/-! ## Order lemmas for heap entries -/

theorem strLtB_cons_iff (y z : Char) (bs cs : List Char) :
    strLtB (y :: bs) (z :: cs) = true ↔
      y < z ∨ (y = z ∧ strLtB bs cs = true) := by
  by_cases h1 : y < z
  · simp [strLtB, h1]
  · by_cases h2 : z < y
    · have hne : y ≠ z := fun he => absurd (he ▸ h2) (lt_irrefl _)
      simp [strLtB, h1, h2, hne]
    · have heq : y = z := le_antisymm (not_lt.mp h2) (not_lt.mp h1)
      simp [strLtB, h1, h2, heq]

theorem strLtB_irrefl : ∀ a : List Char, strLtB a a = false := by
  intro a
  induction a with
  | nil => rfl
  | cons x xs ih => simp [strLtB, lt_irrefl, ih]

theorem strLtB_total (a : List Char) :
    ∀ b : List Char, strLtB a b = true ∨ strLtB b a = true ∨ a = b := by
  induction a with
  | nil =>
      intro b
      cases b with
      | nil => right; right; rfl
      | cons y bs => left; rfl
  | cons x as ih =>
      intro b
      cases b with
      | nil => right; left; rfl
      | cons y bs =>
          rcases lt_trichotomy x y with h | h | h
          · left; rw [strLtB_cons_iff]; exact Or.inl h
          · subst h
            rcases ih bs with h1 | h1 | h1
            · left; rw [strLtB_cons_iff]; exact Or.inr ⟨rfl, h1⟩
            · right; left; rw [strLtB_cons_iff]; exact Or.inr ⟨rfl, h1⟩
            · right; right; rw [h1]
          · right; left; rw [strLtB_cons_iff]; exact Or.inl h

theorem strLtB_trans (a : List Char) :
    ∀ b c : List Char, strLtB a b = true → strLtB b c = true →
      strLtB a c = true := by
  induction a with
  | nil =>
      intro b c hab hbc
      cases b with
      | nil => exact absurd hab (by simp [strLtB])
      | cons y bs =>
          cases c with
          | nil => exact absurd hbc (by simp [strLtB])
          | cons z cs => rfl
  | cons x as ih =>
      intro b c hab hbc
      cases b with
      | nil => exact absurd hab (by simp [strLtB])
      | cons y bs =>
          cases c with
          | nil => exact absurd hbc (by simp [strLtB])
          | cons z cs =>
              rw [strLtB_cons_iff] at hab hbc ⊢
              rcases hab with hab | ⟨hab, hab2⟩
              · rcases hbc with hbc | ⟨hbc, _⟩
                · exact Or.inl (lt_trans hab hbc)
                · exact Or.inl (hbc ▸ hab)
              · rcases hbc with hbc | ⟨hbc, hbc2⟩
                · exact Or.inl (by rw [hab]; exact hbc)
                · exact Or.inr ⟨hab.trans hbc, ih bs cs hab2 hbc2⟩

theorem string_data_eq {s t : String} (h : s.data = t.data) : s = t := by
  cases s; cases t; exact congrArg String.mk h

theorem entryLt_iff (a b : HeapEntry) :
    entryLt a b = true ↔
      a.1 < b.1 ∨ (a.1 = b.1 ∧ strLtB a.2.data b.2.data = true) := by
  by_cases h1 : a.1 < b.1
  · simp [entryLt, h1]
  · by_cases h2 : b.1 < a.1
    · have hne : a.1 ≠ b.1 := fun he => absurd (he ▸ h2) (lt_irrefl _)
      simp [entryLt, h1, h2, hne]
    · have heq : a.1 = b.1 := le_antisymm (not_lt.mp h2) (not_lt.mp h1)
      simp [entryLt, h1, h2, heq]

theorem entryLt_irrefl (a : HeapEntry) : entryLt a a = false := by
  simp [entryLt, lt_irrefl, strLtB_irrefl]

theorem entryLt_trans {a b c : HeapEntry} (h1 : entryLt a b = true)
    (h2 : entryLt b c = true) : entryLt a c = true := by
  rw [entryLt_iff] at h1 h2 ⊢
  rcases h1 with h1 | ⟨h1, h1s⟩
  · rcases h2 with h2 | ⟨h2, _⟩
    · exact Or.inl (lt_trans h1 h2)
    · exact Or.inl (h2 ▸ h1)
  · rcases h2 with h2 | ⟨h2, h2s⟩
    · exact Or.inl (by rw [h1]; exact h2)
    · exact Or.inr ⟨h1.trans h2, strLtB_trans _ _ _ h1s h2s⟩

theorem entryLt_total (a b : HeapEntry) :
    entryLt a b = true ∨ entryLt b a = true ∨ a = b := by
  obtain ⟨ai, as⟩ := a
  obtain ⟨bi, bs⟩ := b
  rcases lt_trichotomy ai bi with h | h | h
  · left; rw [entryLt_iff]; exact Or.inl h
  · subst h
    rcases strLtB_total as.data bs.data with h1 | h1 | h1
    · left; rw [entryLt_iff]; exact Or.inr ⟨rfl, h1⟩
    · right; left; rw [entryLt_iff]; exact Or.inr ⟨rfl, h1⟩
    · right; right
      rw [string_data_eq h1]
  · right; left; rw [entryLt_iff]; exact Or.inl h

/-! ## Heap minimum lemmas -/

theorem heapMinEntry_mem (es : List HeapEntry) :
    ∀ e : HeapEntry, heapMinEntry e es ∈ e :: es := by
  induction es with
  | nil => intro e; simp [heapMinEntry]
  | cons x xs ih =>
      intro e
      rw [heapMinEntry]
      by_cases hx : entryLt x e = true
      · rw [if_pos hx]
        rcases List.mem_cons.mp (ih x) with h | h
        · rw [h]; simp
        · simp [h]
      · rw [if_neg hx]
        rcases List.mem_cons.mp (ih e) with h | h
        · rw [h]; simp
        · simp [h]

theorem heapMinEntry_min (es : List HeapEntry) :
    ∀ e x : HeapEntry, x ∈ e :: es →
      entryLt x (heapMinEntry e es) = false := by
  induction es with
  | nil =>
      intro e x hx
      have hxe : x = e := by simpa using hx
      subst hxe
      rw [heapMinEntry]
      exact entryLt_irrefl x
  | cons y ys ih =>
      intro e x hx
      rw [heapMinEntry]
      by_cases hy : entryLt y e = true
      · rw [if_pos hy]
        rcases List.mem_cons.mp hx with h | h
        · subst h
          by_contra hem
          rw [Bool.not_eq_false] at hem
          have hym := ih y y (by simp)
          have := entryLt_trans hy hem
          simp [this] at hym
        · exact ih y x h
      · rw [if_neg hy]
        rcases List.mem_cons.mp hx with h | h
        · subst h
          exact ih x x (by simp)
        · rcases List.mem_cons.mp h with h1 | h1
          · subst h1
            by_contra hxm
            rw [Bool.not_eq_false] at hxm
            rcases entryLt_total x e with ht | ht | ht
            · exact hy ht
            · have hem := entryLt_trans ht hxm
              have := ih e e (by simp)
              simp [hem] at this
            · subst ht
              have := ih x x (by simp)
              simp [hxm] at this
          · exact ih e x (by simp [h1])

theorem mem_buildHeap (l : List FundingRequest) :
    ∀ (h0 : List HeapEntry) (e : HeapEntry),
      e ∈ buildHeap h0 l ↔ e ∈ h0 ∨ ∃ r ∈ l, e = (-r.urgency, r.id) := by
  induction l with
  | nil => intro h0 e; simp [buildHeap]
  | cons r l ih =>
      intro h0 e
      rw [show buildHeap h0 (r :: l) = buildHeap (push_heap h0 r) l from rfl]
      rw [ih]
      constructor
      · intro h
        rcases h with h | h
        · rcases List.mem_cons.mp h with h1 | h1
          · exact Or.inr ⟨r, by simp, h1⟩
          · exact Or.inl h1
        · obtain ⟨r', hr', he⟩ := h
          exact Or.inr ⟨r', List.mem_cons_of_mem _ hr', he⟩
      · intro h
        rcases h with h | h
        · exact Or.inl (List.mem_cons_of_mem _ h)
        · obtain ⟨r', hr', he⟩ := h
          rcases List.mem_cons.mp hr' with h1 | h1
          · subst h1
            exact Or.inl (by simp [push_heap, he])
          · exact Or.inr ⟨r', h1, he⟩

/-! ## C1 — ReviewNext pop order -/

/-- C1 (amended): popping the urgency heap returns an entry pushed for
one of the queued requests; that request's urgency is the numerically
highest among all queued requests; and when another queued request has
the same urgency, the returned id is lexicographically smaller-or-equal
as a *string* (so for ids of different digit-lengths, e.g. R10 vs R2,
the lexicographically smaller "R10" wins, not the numerically smaller
R2).  The popped entry is removed and nothing is re-inserted. -/
theorem C1_review_order (reqs : List FundingRequest) (e : HeapEntry)
    (rest : List HeapEntry)
    (hp : pop_heap (buildHeap [] reqs) = some (e, rest)) :
    (∃ r ∈ reqs, e = (-r.urgency, r.id)) ∧
    (∀ r ∈ reqs, r.urgency ≤ -e.1) ∧
    (∀ r ∈ reqs, r.urgency = -e.1 →
      e.2 = r.id ∨ strLtB e.2.data r.id.data = true) ∧
    rest = (buildHeap [] reqs).erase e := by
  cases hh : buildHeap [] reqs with
  | nil => rw [hh] at hp; exact Option.noConfusion hp
  | cons x xs =>
      rw [hh] at hp
      rw [pop_heap] at hp
      have hp2 := Option.some.inj hp
      have he : heapMinEntry x xs = e := congrArg Prod.fst hp2
      have hrest : (x :: xs).erase (heapMinEntry x xs) = rest :=
        congrArg Prod.snd hp2
      have hminfalse : ∀ k : HeapEntry, k ∈ x :: xs →
          entryLt k e = false := by
        intro k hk
        rw [← he]
        exact heapMinEntry_min xs x k hk
      have hkeymem : ∀ r ∈ reqs, ((-r.urgency, r.id) : HeapEntry) ∈ x :: xs := by
        intro r hr
        rw [← hh]
        exact (mem_buildHeap reqs [] _).mpr (Or.inr ⟨r, hr, rfl⟩)
      have hnotlt : ∀ r ∈ reqs,
          ¬ ((-r.urgency : Int) < e.1 ∨
             ((-r.urgency : Int) = e.1 ∧ strLtB r.id.data e.2.data = true)) := by
        intro r hr
        have h1 : ¬ entryLt ((-r.urgency, r.id) : HeapEntry) e = true := by
          simp [hminfalse _ (hkeymem r hr)]
        rw [entryLt_iff] at h1
        exact h1
      refine ⟨?_, ?_, ?_, ?_⟩
      · have hm : e ∈ x :: xs := he ▸ heapMinEntry_mem xs x
        have h2 := (mem_buildHeap reqs [] e).mp (by rw [hh]; exact hm)
        rcases h2 with h2 | h2
        · simp at h2
        · exact h2
      · intro r hr
        have h1 := hnotlt r hr
        push_neg at h1
        have := h1.1
        omega
      · intro r hr hu
        have hkey1 : ((-r.urgency : Int), r.id).1 = e.1 := by
          show (-r.urgency : Int) = e.1
          omega
        rcases entryLt_total e (-r.urgency, r.id) with ht | ht | ht
        · rw [entryLt_iff] at ht
          rcases ht with ht | ⟨_, hts⟩
          · exact absurd (hkey1 ▸ ht) (lt_irrefl _)
          · exact Or.inr hts
        · have := hminfalse _ (hkeymem r hr)
          rw [ht] at this
          exact Bool.noConfusion this
        · exact Or.inl (congrArg Prod.snd ht)
      · rw [← hrest, he]

/-- C1 witness: two queued requests with urgencies 5 and 9; the pop
returns the entry for the urgency-9 request `R2` and removes it. -/
theorem C1_review_order_witness :
    pop_heap (buildHeap []
      [{ id := "R1", student_id := "s1", amount := 100, urgency := 5,
         status := "submitted" },
       { id := "R2", student_id := "s1", amount := 50, urgency := 9,
         status := "submitted" }]) =
      some (((-9 : Int), "R2"), [((-5 : Int), "R1")]) ∧
    (∃ r ∈
      [{ id := "R1", student_id := "s1", amount := 100, urgency := 5,
         status := "submitted" },
       ({ id := "R2", student_id := "s1", amount := 50, urgency := 9,
          status := "submitted" } : FundingRequest)],
      (((-9 : Int), "R2") : HeapEntry) = (-r.urgency, r.id)) :=
  ⟨by decide,
   (C1_review_order
      [{ id := "R1", student_id := "s1", amount := 100, urgency := 5,
         status := "submitted" },
       { id := "R2", student_id := "s1", amount := 50, urgency := 9,
         status := "submitted" }]
      ((-9 : Int), "R2") [((-5 : Int), "R1")] (by decide)).1⟩

/-- C1 counterexample to the claim as stated: `R2` and `R10` share
urgency 5; the numerically smaller id is `R2` (2 < 10), yet the pop
returns `R10`, because the tie-break compares the id *strings* and
`"R10" < "R2"` lexicographically. -/
theorem C1_counterexample :
    ridNum "R2" < ridNum "R10" ∧
    (pop_heap [((-5 : Int), "R2"), ((-5 : Int), "R10")]).map
      (fun x => x.1.2) = some "R10" := by
  refine ⟨by decide, by decide⟩

/-! ## C10 — load_state tolerance and the missing-id exception -/

theorem loadUsers_error (us : List JUser) :
    ∀ acc, (∃ u ∈ us, u.jid = none) →
      loadUsers acc us = .error .idMissing := by
  induction us with
  | nil => intro acc h; simp at h
  | cons u us ih =>
      intro acc h
      cases hj : u.jid with
      | none => simp [loadUsers, hj]
      | some i =>
          obtain ⟨u', hu', hj'⟩ := h
          rcases List.mem_cons.mp hu' with h1 | h1
          · subst h1
            rw [hj] at hj'
            exact Option.noConfusion hj'
          · simp only [loadUsers, hj]
            exact ih _ ⟨u', h1, hj'⟩

theorem loadRequests_error (rs : List JRequest) :
    ∀ acc, (∃ r ∈ rs, r.jid = none) →
      loadRequests acc rs = .error .idMissing := by
  induction rs with
  | nil => intro acc h; simp at h
  | cons r rs ih =>
      intro acc h
      cases hj : r.jid with
      | none => simp [loadRequests, hj]
      | some i =>
          obtain ⟨r', hr', hj'⟩ := h
          rcases List.mem_cons.mp hr' with h1 | h1
          · subst h1
            rw [hj] at hj'
            exact Option.noConfusion hj'
          · simp only [loadRequests, hj]
            exact ih _ ⟨r', h1, hj'⟩

/-- C10 (confirmed): `load_state` substitutes defaults for missing
`name`, `role`, `student_id`, `amount`, `urgency` and `status` fields
(and for malformed numeric fields), returns empty registries for a
missing or unparseable file, but is not total over all parseable
payloads: any user or request record without an `"id"` key makes
`load_state` raise the uncaught `KeyError` (modelled as the error
result), instead of defaulting or skipping the record. -/
theorem C10_load_partial_tolerance :
    load_state .fileMissing = .ok ([], []) ∧
    load_state .unparseable = .ok ([], []) ∧
    (∀ i, loadUsers [] [{ jid := some i, jname := none, jrole := none }] =
      .ok [(i, { id := i, name := "", role := "student" })]) ∧
    (∀ i, loadRequests []
        [{ jid := some i, jstudent_id := none, jamount := .missing,
           jurgency := .missing, jstatus := none }] =
      .ok [(i, { id := i, student_id := "", amount := 0, urgency := 1,
                 status := "submitted" })]) ∧
    (∀ i, loadRequests []
        [{ jid := some i, jstudent_id := none, jamount := .malformed,
           jurgency := .malformed, jstatus := none }] =
      .ok [(i, { id := i, student_id := "", amount := 0, urgency := 1,
                 status := "submitted" })]) ∧
    (∀ p : Payload,
      ((∃ u ∈ p.users, u.jid = none) ∨ (∃ r ∈ p.requests, r.jid = none)) →
      load_state (.parsed p) = .error .idMissing) := by
  refine ⟨rfl, rfl, fun i => rfl, fun i => rfl, fun i => rfl, ?_⟩
  intro p h
  show (match loadUsers [] p.users with
    | Except.error e => Except.error e
    | Except.ok us =>
        match loadRequests [] p.requests with
        | Except.error e => Except.error e
        | Except.ok rs => Except.ok (us, rs)) =
    Except.error KeyError.idMissing
  rcases h with h | h
  · rw [loadUsers_error p.users [] h]
  · cases hu : loadUsers [] p.users with
    | error e => cases e; rfl
    | ok us =>
        show (match loadRequests [] p.requests with
          | Except.error e => (Except.error e :
              Except KeyError (List (String × User) ×
                List (String × FundingRequest)))
          | Except.ok rs => Except.ok (us, rs)) =
          Except.error KeyError.idMissing
        rw [loadRequests_error p.requests [] h]

/-- C10 witness: a payload whose only user record lacks `"id"` makes
the load fail, while a record that has an id but nothing else loads
with all the documented defaults. -/
theorem C10_load_partial_tolerance_witness :
    load_state (.parsed
      { users := [{ jid := none, jname := some "Ana",
                    jrole := some "student" }],
        requests := [] }) = .error .idMissing ∧
    loadUsers [] [{ jid := some "u9", jname := none, jrole := none }] =
      .ok [("u9", { id := "u9", name := "", role := "student" })] :=
  ⟨C10_load_partial_tolerance.2.2.2.2.2
      { users := [{ jid := none, jname := some "Ana",
                    jrole := some "student" }],
        requests := [] }
      (Or.inl ⟨{ jid := none, jname := some "Ana", jrole := some "student" },
        by simp, rfl⟩),
   C10_load_partial_tolerance.2.2.1 "u9"⟩
